import Mathlib

/-!
# Interactive session bridge of the VNC viewer (`src/main_texture.c`)

A shallow embedding of the GTK signal handlers of `main_texture.c`.

* Each handler is a function `Data D → Data D × List Out`: the session record
  before the call, the record after it, and the calls made into libvncclient,
  GDK and GLib, in program order.
* A `gint` is represented by its 32-bit pattern, a natural below `2 ^ 32`;
  `&` and `|` are `&&&` and `|||`, and `~` is `gint_not`.  The handlers keep
  the stored mask in that range (`dispatch_gint_range`).
* `gdouble` is a type parameter `D` together with a record `GDouble D` of the
  operations the handlers apply to it.  Every general theorem is stated for
  an arbitrary `D`, so none depends on how floating point rounds.  The
  arithmetic of the program is the instance `binary64`, IEEE 754 binary64
  with correctly rounded division, at which the coordinate scaling is
  evaluated.  Sessions without pointer motion, where rounding plays no part,
  are instantiated with exact rational arithmetic (`exactDouble`).
-/

namespace VncClient

/-! ## Constants of the external headers -/

/-- Modelled from the spec: `rfbButton1Mask` of `rfb/rfbproto.h`, the pointer
mask bit of the primary button (value 1). -/
def rfbButton1Mask : Nat := 1

/-- Modelled from the spec: `rfbButton2Mask` of `rfb/rfbproto.h`, the pointer
mask bit of the middle button (value 2). -/
def rfbButton2Mask : Nat := 2

/-- Modelled from the spec: `rfbButton3Mask` of `rfb/rfbproto.h`, the pointer
mask bit of the secondary button (value 4). -/
def rfbButton3Mask : Nat := 4

/-- Modelled from the spec: `rfbWheelUpMask` of `rfb/rfbproto.h` (value 8). -/
def rfbWheelUpMask : Nat := 8

/-- Modelled from the spec: `rfbWheelDownMask` of `rfb/rfbproto.h` (value 16). -/
def rfbWheelDownMask : Nat := 16

/-- Line 4: `#define rfbWheelLeftMask 32`. -/
def rfbWheelLeftMask : Nat := 32

/-- Line 5: `#define rfbWheelRightMask 64`. -/
def rfbWheelRightMask : Nat := 64

/-- Modelled from the spec: `GDK_BUTTON_PRIMARY` of `gdk/gdkevents.h`, the
identifier of the primary button. -/
def GDK_BUTTON_PRIMARY : Nat := 1

/-- Modelled from the spec: `GDK_BUTTON_MIDDLE` of `gdk/gdkevents.h`, the
identifier of the middle button. -/
def GDK_BUTTON_MIDDLE : Nat := 2

/-- Modelled from the spec: `GDK_BUTTON_SECONDARY` of `gdk/gdkevents.h`, the
identifier of the secondary button. -/
def GDK_BUTTON_SECONDARY : Nat := 3

/-- Modelled from the spec: `GDK_KEY_Pause` of `gdk/gdkkeysyms.h`, the key
symbol of the designated hotkey. -/
def GDK_KEY_Pause : Nat := 0xff13

/-- Modelled from the spec: `GDK_NO_MODIFIER_MASK` of `gdk/gdkenums.h`, the
modifier state with no modifier key held. -/
def GDK_NO_MODIFIER_MASK : Nat := 0

/-! ## Machine types -/

/-- Bitwise complement `~x` of a 32-bit `gint`, as a bit pattern. -/
def gint_not (x : Nat) : Nat := (2 ^ 32 - 1 - x % 2 ^ 32) % 2 ^ 32

/-- The operations the handlers apply to `gdouble` values.  `ofInt` is the
conversion `(gdouble) n` of an `int`, `div` is `/`, `lt a b` is `a < b`, and
`toInt` is the conversion to `int` made when a `gdouble` is passed to
`SendPointerEvent (rfbClient *, int x, int y, int buttonMask)`.  The two laws
are the only facts about floating point the development relies on: `<` is
asymmetric, and on the conversions of 32-bit `int` values, which are exact,
it is the order of the integers. -/
structure GDouble (D : Type) where
  ofInt : Int → D
  div : D → D → D
  lt : D → D → Bool
  toInt : D → Int
  lt_asymm : ∀ a b, lt a b = true → lt b a = false
  lt_ofInt : ∀ m n : Int, -2 ^ 31 ≤ m → m < 2 ^ 31 → -2 ^ 31 ≤ n → n < 2 ^ 31 →
    lt (ofInt m) (ofInt n) = decide (m < n)

/-- A byte of a C string. -/
abbrev gchar := Fin 256

/-! ## Session record (lines 7-31) -/

/-- Lines 7-10, `Window`.  Of the two pointers the handlers only use what the
GTK queries on them return: `surface` records `GDK_IS_TOPLEVEL (surface)`;
the size of `area` is passed to `handle_mouse_motion` as an argument. -/
structure Window where
  surface : Bool
deriving DecidableEq, Repr

/-- Lines 12-14, `Status`. -/
structure Status where
  inhibited : Bool
deriving DecidableEq, Repr

/-- Lines 16-19, `Mouse`. -/
structure Mouse (D : Type) where
  buttons : Nat
  X : D
  Y : D
deriving DecidableEq, Repr

/-- Lines 21-24, `Clipboard`.  `cb` records `GDK_IS_CLIPBOARD (cb)`;
`text` is `none` for `NULL` and otherwise the bytes of the allocated buffer. -/
structure Clipboard where
  cb : Bool
  text : Option (List gchar)
deriving DecidableEq, Repr

/-- Lines 26-31, `Data`. -/
structure Data (D : Type) where
  status : Status
  window : Window
  mouse : Mouse D
  clipboard : Clipboard
deriving DecidableEq, Repr

/-- The fields of `rfbClient` that the handlers read. -/
structure rfbClient where
  width : Int
  height : Int
deriving DecidableEq, Repr

/-- A call made by a handler into libvncclient, GDK or GLib. -/
inductive Out where
  | SendPointerEvent (x y : Int) (buttonMask : Nat)
  | SendKeyEvent (key : Nat) (down : Bool)
  | SendIncrementalFramebufferUpdateRequest
  | gdk_clipboard_read_text_async
  | gdk_clipboard_set_text (text : List gchar)
  | gdk_toplevel_inhibit_system_shortcuts
  | gdk_toplevel_restore_system_shortcuts
  | g_warning
deriving DecidableEq, Repr

variable {D : Type}

/-- Lines 33-38, `init_data`: every field is zero-filled by `g_new0`. -/
def init_data (F : GDouble D) : Data D :=
  { status := { inhibited := false }
    window := { surface := false }
    mouse := { buttons := 0, X := F.ofInt 0, Y := F.ofInt 0 }
    clipboard := { cb := false, text := none } }

/-- The bytes of a buffer read as a C string: those before the first zero. -/
def cstring (buf : List gchar) : List gchar := buf.takeWhile (fun c => c ≠ 0)

/-- The GLib function `g_strndup (str, n)` for a non-null `str`: a fresh buffer of
`n + 1` bytes into which `strncpy (new_str, str, n)` copies the bytes of `str`
up to its first zero byte, at most `n` of them, and fills the rest with
zero bytes. -/
def g_strndup (str : List gchar) (n : Nat) : List gchar :=
  let copied := cstring (str.take n)
  copied ++ List.replicate (n + 1 - copied.length) 0

/-- The call `SendPointerEvent (client, data->mouse->X, data->mouse->Y,
data->mouse->buttons)` made on the record `data`. -/
def sendPointer (F : GDouble D) (data : Data D) : Out :=
  Out.SendPointerEvent (F.toInt data.mouse.X) (F.toInt data.mouse.Y) data.mouse.buttons

/-- The assignment `data->mouse->buttons = v`. -/
def setButtons (data : Data D) (v : Nat) : Data D :=
  { data with mouse := { data.mouse with buttons := v } }

/-! ## Handlers -/

/-- Lines 70-75, `send_clipboard_content`. -/
def send_clipboard_content (data : Data D) : List Out :=
  if data.clipboard.cb then [Out.gdk_clipboard_read_text_async] else []

/-- Lines 77-84, `write_clipboard_content`. -/
def write_clipboard_content (data : Data D) : List Out :=
  if data.clipboard.cb then
    match data.clipboard.text with
    | some text => [Out.gdk_clipboard_set_text (cstring text)]
    | none => []
  else []

/-- Lines 86-98, `handle_key_press`. -/
def handle_key_press (keyval state : Nat) (data : Data D) : Data D × List Out :=
  if state = GDK_NO_MODIFIER_MASK ∧ keyval = GDK_KEY_Pause then
    let sync :=
      if data.status.inhibited then write_clipboard_content data
      else send_clipboard_content data
    (data, sync ++ [Out.SendIncrementalFramebufferUpdateRequest])
  else
    (data, [Out.SendKeyEvent keyval true])

/-- Lines 50-54, `inhibit_system_shortcuts`. -/
def inhibit_system_shortcuts (surface : Bool) : List Out :=
  if surface then [Out.gdk_toplevel_inhibit_system_shortcuts] else []

/-- Lines 56-60, `restore_system_shortcuts`. -/
def restore_system_shortcuts (surface : Bool) : List Out :=
  if surface then [Out.gdk_toplevel_restore_system_shortcuts] else []

/-- Lines 100-111, `handle_key_release`. -/
def handle_key_release (keyval state : Nat) (data : Data D) : Data D × List Out :=
  if state = GDK_NO_MODIFIER_MASK ∧ keyval = GDK_KEY_Pause then
    if data.status.inhibited then (data, restore_system_shortcuts data.window.surface)
    else (data, inhibit_system_shortcuts data.window.surface)
  else
    (data, [Out.SendKeyEvent keyval false])

/-- Lines 117-130 of `process_mouse_button`: the `switch` on the current
button of the gesture; `none` is the `default` branch. -/
def button_mask (button : Nat) : Option Nat :=
  if button = GDK_BUTTON_PRIMARY then some rfbButton1Mask
  else if button = GDK_BUTTON_MIDDLE then some rfbButton2Mask
  else if button = GDK_BUTTON_SECONDARY then some rfbButton3Mask
  else none

/-- Lines 113-149, `process_mouse_button`; `button` is what
`gtk_gesture_single_get_current_button` returns for the gesture.  The
`default` branch returns after the warning; otherwise the branch on
`pressed` runs (lines 132-146) and the final `SendPointerEvent` of line 148
follows it. -/
def process_mouse_button (F : GDouble D) (button : Nat) (pressed : Bool) (data : Data D) :
    Data D × List Out :=
  match button_mask button with
  | none => (data, [Out.g_warning])
  | some mask =>
    let r : Data D × List Out :=
      if pressed then
        let r1 : Data D × List Out :=
          if data.mouse.buttons &&& mask ≠ 0 then
            let d1 := setButtons data (data.mouse.buttons &&& gint_not mask)
            (d1, [sendPointer F d1])
          else (data, [])
        (setButtons r1.1 (r1.1.mouse.buttons ||| mask), r1.2)
      else
        let r1 : Data D × List Out :=
          if ¬ (data.mouse.buttons &&& mask ≠ 0) then
            let d1 := setButtons data (data.mouse.buttons ||| mask)
            (d1, [sendPointer F d1])
          else (data, [])
        (setButtons r1.1 (r1.1.mouse.buttons &&& gint_not mask), r1.2)
    (r.1, r.2 ++ [sendPointer F r.1])

/-- Lines 151-153, `handle_mouse_press`. -/
def handle_mouse_press (F : GDouble D) (button : Nat) (data : Data D) : Data D × List Out :=
  process_mouse_button F button true data

/-- Lines 155-157, `handle_mouse_release`. -/
def handle_mouse_release (F : GDouble D) (button : Nat) (data : Data D) : Data D × List Out :=
  process_mouse_button F button false data

/-- Lines 159-166, `handle_mouse_motion`; `areaWidth` and `areaHeight` are what
`gtk_widget_get_width` and `gtk_widget_get_height` return for
`data->window->area`. -/
def handle_mouse_motion (F : GDouble D) (client : rfbClient) (areaWidth areaHeight : Int)
    (x y : D) (data : Data D) : Data D × List Out :=
  if data.status.inhibited then
    let d1 : Data D :=
      { data with mouse := { data.mouse with
          X := F.div x (F.div (F.ofInt areaWidth) (F.ofInt client.width)) } }
    let d2 : Data D :=
      { d1 with mouse := { d1.mouse with
          Y := F.div y (F.div (F.ofInt areaHeight) (F.ofInt client.height)) } }
    (d2, [sendPointer F d2])
  else (data, [])

/-- Lines 171-181 of `handle_scroll`: the transient wheel mask. -/
def scroll_mask (F : GDouble D) (dx dy : D) : Nat :=
  let mask := 0
  let mask :=
    if F.lt dy (F.ofInt 0) then mask ||| rfbWheelUpMask
    else if F.lt (F.ofInt 0) dy then mask ||| rfbWheelDownMask
    else mask
  let mask :=
    if F.lt dx (F.ofInt 0) then mask ||| rfbWheelLeftMask
    else if F.lt (F.ofInt 0) dx then mask ||| rfbWheelRightMask
    else mask
  mask

/-- Lines 168-187, `handle_scroll`. -/
def handle_scroll (F : GDouble D) (dx dy : D) (data : Data D) : Data D × List Out :=
  if data.status.inhibited then
    let mask := scroll_mask F dx dy
    let d1 := setButtons data (data.mouse.buttons ||| mask)
    let d2 := setButtons d1 (d1.mouse.buttons &&& gint_not mask)
    (d2, [sendPointer F d1, sendPointer F d2])
  else (data, [])

/-- Lines 189-195, `handle_clipboard_content`; `text = none` is a `NULL`
pointer, and `textlen` is the non-negative length passed by libvncclient. -/
def handle_clipboard_content (text : Option (List gchar)) (textlen : Nat) (data : Data D) :
    Data D :=
  match text with
  | some t => { data with clipboard := { data.clipboard with text := some (g_strndup t textlen) } }
  | none => data

/-- Lines 232-234, `on_shortcuts_inhibited_notify`; `inhibited` is the value of
the `shortcuts-inhibited` property that `g_object_get` reads. -/
def on_shortcuts_inhibited_notify (inhibited : Bool) (data : Data D) : Data D :=
  { data with status := { data.status with inhibited := inhibited } }

/-- Lines 237-239 of `on_map`: the surface and the clipboard of the default
display are recorded; `toplevel` and `clipboard` are what `GDK_IS_TOPLEVEL`
and `GDK_IS_CLIPBOARD` answer for the two objects obtained. -/
def on_map (toplevel clipboard : Bool) (data : Data D) : Data D :=
  { data with window := { data.window with surface := toplevel },
              clipboard := { data.clipboard with cb := clipboard } }

/-! ## Concrete arithmetic -/

/-- Exact rational arithmetic as an implementation of the `gdouble`
operations, with truncation toward zero as the conversion to `int`.  It is an
idealisation, not the arithmetic of the program: it serves only to apply the
general theorems to sessions without pointer motion, in which the stored
position stays 0 and rounding plays no part.  The arithmetic of the program
is `binary64` below. -/
def exactDouble : GDouble ℚ where
  ofInt n := (n : ℚ)
  div a b := a / b
  lt a b := decide (a < b)
  toInt q := Int.tdiv q.num q.den
  lt_asymm := by
    intro a b h
    simp only [decide_eq_true_eq, decide_eq_false_iff_not, not_lt] at h ⊢
    exact le_of_lt h
  lt_ofInt := by
    intro m n _ _ _ _
    simp

/-! ## Binary64 arithmetic

The C type `double` of the program is IEEE 754 binary64 with the default
rounding, round to nearest with ties to even.  The operations below compute
on exact integers, so each result is the correctly rounded one. -/

/-- A binary64 datum: not-a-number, an infinity with its sign, or the finite
number `(-1) ^ neg * m * 2 ^ e` (a zero when `m = 0`, with its sign).  Several
triples may denote one number; the operations depend on the number only. -/
inductive Binary64 where
  | nan
  | inf (neg : Bool)
  | fin (neg : Bool) (m : Nat) (e : Int)
deriving DecidableEq, Repr

/-- The number of halvings that bring `n` below 2, at most `fuel` of them. -/
def log2Fuel : Nat → Nat → Nat
  | 0, _ => 0
  | fuel + 1, n => if n < 2 then 0 else log2Fuel fuel (n / 2) + 1

/-- The floor of the binary logarithm of a positive `n`; the fuel `n` is never
exhausted (`bitLog_spec`). -/
def bitLog (n : Nat) : Nat := log2Fuel n n

/-- The floor of the binary logarithm of `p / q`, for positive `p` and `q`:
the difference of the two logarithms, or one less. -/
def floorLog2 (p q : Nat) : Int :=
  let d : Int := (bitLog p : Int) - (bitLog q : Int)
  if 0 ≤ d then (if q * 2 ^ d.toNat ≤ p then d else d - 1)
  else (if q ≤ p * 2 ^ (-d).toNat then d else d - 1)

/-- The integer nearest to `num / den`, the even one of the two on a tie. -/
def roundHalfEven (num den : Nat) : Nat :=
  let fl := num / den
  let rem := num % den
  if 2 * rem < den then fl
  else if den < 2 * rem then fl + 1
  else if fl % 2 = 0 then fl else fl + 1

/-- The binary64 number nearest to `p / q`, for positive `p` and `q`, as a
pair `(n, e)` standing for `n * 2 ^ e`; `none` when the rounded value
overflows.  The unit `2 ^ e` is that of the binade of `p / q` (53 significant
bits), and never below `2 ^ (-1074)`, the unit of the subnormal numbers. -/
def roundPos (p q : Nat) : Option (Nat × Int) :=
  let e : Int := max (floorLog2 p q) (-1022) - 52
  let n : Nat :=
    if 0 ≤ e then roundHalfEven p (q * 2 ^ e.toNat)
    else roundHalfEven (p * 2 ^ (-e).toNat) q
  if 971 < e ∨ (e = 971 ∧ 2 ^ 53 ≤ n) then none else some (n, e)

/-- The conversion `(gdouble) n` of an integer: exact below `2 ^ 53` in
magnitude, hence for every 32-bit `int`, and correctly rounded beyond. -/
def Binary64.ofInt (n : Int) : Binary64 :=
  if n.natAbs < 2 ^ 53 then Binary64.fin (decide (n < 0)) n.natAbs 0
  else
    match roundPos n.natAbs 1 with
    | none => Binary64.inf (decide (n < 0))
    | some (m, e) => Binary64.fin (decide (n < 0)) m e

/-- The quotient `a / b` of IEEE 754: not-a-number for `0 / 0`, for
`inf / inf` and when an operand is one; an infinity for a nonzero number
divided by zero, for an infinite dividend and on overflow; a zero for a zero
or finite dividend with an infinite divisor; otherwise the correctly rounded
quotient.  The sign is the exclusive or of the signs. -/
def Binary64.div : Binary64 → Binary64 → Binary64
  | Binary64.nan, _ => Binary64.nan
  | _, Binary64.nan => Binary64.nan
  | Binary64.inf _, Binary64.inf _ => Binary64.nan
  | Binary64.inf s, Binary64.fin t _ _ => Binary64.inf (xor s t)
  | Binary64.fin s _ _, Binary64.inf t => Binary64.fin (xor s t) 0 0
  | Binary64.fin s ma ea, Binary64.fin t mb eb =>
    if mb = 0 then (if ma = 0 then Binary64.nan else Binary64.inf (xor s t))
    else if ma = 0 then Binary64.fin (xor s t) 0 0
    else
      let r :=
        if eb ≤ ea then roundPos (ma * 2 ^ (ea - eb).toNat) mb
        else roundPos ma (mb * 2 ^ (eb - ea).toNat)
      match r with
      | none => Binary64.inf (xor s t)
      | some (n, e) => Binary64.fin (xor s t) n e

/-- The finite number `(-1) ^ s * m * 2 ^ e` as an integer multiple of
`2 ^ c`, for `c ≤ e`. -/
def Binary64.scaled (s : Bool) (m : Nat) (e c : Int) : Int :=
  (if s then -(m : Int) else (m : Int)) * 2 ^ (e - c).toNat

/-- The comparison `a < b` of IEEE 754: false when an operand is
not-a-number; the two zeros are equal. -/
def Binary64.lt : Binary64 → Binary64 → Bool
  | Binary64.nan, _ => false
  | _, Binary64.nan => false
  | Binary64.inf s, Binary64.inf t => s && !t
  | Binary64.inf s, Binary64.fin _ _ _ => s
  | Binary64.fin _ _ _, Binary64.inf t => !t
  | Binary64.fin s m e, Binary64.fin t m' e' =>
    decide (Binary64.scaled s m e (min e e') < Binary64.scaled t m' e' (min e e'))

/-- The conversion of a `double` to a 32-bit `int`: truncation toward zero.
When the truncated value is not an `int`, or the operand is an infinity or
not-a-number, C leaves the result undefined; the conversion instruction of
x86-64 then yields `INT_MIN`, which is the value taken here. -/
def Binary64.toInt : Binary64 → Int
  | Binary64.nan => -2 ^ 31
  | Binary64.inf _ => -2 ^ 31
  | Binary64.fin s m e =>
    let t : Nat := if 0 ≤ e then m * 2 ^ e.toNat else m / 2 ^ (-e).toNat
    let v : Int := if s then -(t : Int) else (t : Int)
    if -2 ^ 31 ≤ v ∧ v < 2 ^ 31 then v else -2 ^ 31

/-- The arithmetic of the program: IEEE 754 binary64 as the implementation
of the `gdouble` operations. -/
def binary64 : GDouble Binary64 where
  ofInt := Binary64.ofInt
  div := Binary64.div
  lt := Binary64.lt
  toInt := Binary64.toInt
  lt_asymm := by
    intro a b h
    cases a <;> cases b <;> simp only [Binary64.lt] at h ⊢ <;> try (exact absurd h (by decide))
    · rename_i s t
      cases s <;> cases t <;> simp_all
    · rename_i s t m e
      simp_all
    · rename_i s m e t
      simp_all
    · rename_i s m e t m' e'
      simp only [decide_eq_true_eq] at h
      simp only [decide_eq_false_iff_not, not_lt, min_comm e' e]
      exact le_of_lt h
  lt_ofInt := by
    intro m n hm1 hm2 hn1 hn2
    have hs : ∀ k : Int, (if decide (k < 0) = true then -(k.natAbs : Int) else (k.natAbs : Int)) = k := by
      intro k
      by_cases hk : k < 0
      · simp only [hk, decide_True, if_true]; omega
      · simp only [hk, decide_False, Bool.false_eq_true, if_false]; omega
    have hm : m.natAbs < 2 ^ 53 := by
      norm_num at hm1 hm2 ⊢; omega
    have hn : n.natAbs < 2 ^ 53 := by
      norm_num at hn1 hn2 ⊢; omega
    simp only [Binary64.lt, Binary64.ofInt, if_pos hm, if_pos hn, Binary64.scaled, hs, min_self,
      sub_self, Int.toNat_zero, pow_zero, mul_one]

/-! ## Sessions -/

/-- An event delivered to the session: a GTK signal or a libvncclient
callback, with the values the handler obtains from its arguments. -/
inductive Event (D : Type) where
  | mouse_press (button : Nat)
  | mouse_release (button : Nat)
  | mouse_motion (areaWidth areaHeight : Int) (x y : D)
  | scroll (dx dy : D)
  | shortcuts_inhibited_notify (inhibited : Bool)
  | key_press (keyval state : Nat)
  | key_release (keyval state : Nat)
  | clipboard_content (text : Option (List gchar)) (textlen : Nat)

/-- The handler connected to each event (lines 262-277, 243 and 301). -/
def dispatch (F : GDouble D) (client : rfbClient) (e : Event D) (data : Data D) :
    Data D × List Out :=
  match e with
  | .mouse_press button => handle_mouse_press F button data
  | .mouse_release button => handle_mouse_release F button data
  | .mouse_motion w h x y => handle_mouse_motion F client w h x y data
  | .scroll dx dy => handle_scroll F dx dy data
  | .shortcuts_inhibited_notify b => (on_shortcuts_inhibited_notify b data, [])
  | .key_press keyval state => handle_key_press keyval state data
  | .key_release keyval state => handle_key_release keyval state data
  | .clipboard_content text textlen => (handle_clipboard_content text textlen data, [])

/-- The handlers run one after the other on a sequence of events, on the
single UI thread; the calls they make are concatenated in order. -/
def run (F : GDouble D) (client : rfbClient) : Data D → List (Event D) → Data D × List Out
  | data, [] => (data, [])
  | data, e :: es =>
    let r := dispatch F client e data
    let r' := run F client r.1 es
    (r'.1, r.2 ++ r'.2)

/-- The button masks of the pointer updates in a sequence of calls. -/
def pointerMasks : List Out → List Nat
  | [] => []
  | Out.SendPointerEvent _ _ m :: rest => m :: pointerMasks rest
  | _ :: rest => pointerMasks rest

/-- Whether a call is a pointer update whose mask has a wheel bit set. -/
def hasWheel : Out → Bool
  | Out.SendPointerEvent _ _ m => m &&& (8 ||| 16 ||| 32 ||| 64) != 0
  | _ => false

/-- Whether a call is a pointer update whose mask has every wheel bit clear. -/
def isClean : Out → Bool
  | Out.SendPointerEvent _ _ m => m &&& (8 ||| 16 ||| 32 ||| 64) == 0
  | _ => false

/-- A sequence of calls is pulsed when each pointer update carrying a wheel
bit is directly followed by a pointer update carrying none. -/
def pulsed : List Out → Bool
  | [] => true
  | [o] => !hasWheel o
  | o :: o' :: rest => (!hasWheel o || isClean o') && pulsed (o' :: rest)

/-- The most recent press (`some true`) or release (`some false`) of `button`
in a sequence of events, `none` when it was neither pressed nor released. -/
def lastClick (button : Nat) (es : List (Event D)) : Option Bool :=
  es.foldl
    (fun acc e =>
      match e with
      | Event.mouse_press b => if b = button then some true else acc
      | Event.mouse_release b => if b = button then some false else acc
      | _ => acc)
    none

/-- A button is truly held after `es` when its most recent press or release
event in `es` is a press. -/
def held (button : Nat) (es : List (Event D)) : Bool :=
  lastClick button es == some true

/-- The union of the mask bits of the known buttons truly held after `es`. -/
def heldMask (es : List (Event D)) : Nat :=
  (if held GDK_BUTTON_PRIMARY es then rfbButton1Mask else 0) |||
  (if held GDK_BUTTON_MIDDLE es then rfbButton2Mask else 0) |||
  (if held GDK_BUTTON_SECONDARY es then rfbButton3Mask else 0)

/-- The bits that the first pointer update of the event `e`, handled after
the events `pre`, may carry on top of the truly held buttons: the wheel bits
of `e` when it is a scroll, and the bit of the button when `e` is the release
of a known button that is not truly held after `pre`. -/
def transientBits (F : GDouble D) (pre : List (Event D)) (e : Event D) : Nat :=
  match e with
  | Event.scroll dx dy =>
    (if F.lt dy (F.ofInt 0) then 8 else 0) ||| (if F.lt (F.ofInt 0) dy then 16 else 0) |||
    (if F.lt dx (F.ofInt 0) then 32 else 0) ||| (if F.lt (F.ofInt 0) dx then 64 else 0)
  | Event.mouse_release b =>
    if held b pre then 0 else (button_mask b).getD 0
  | _ => 0

/-! ## Bit-level lemmas -/

theorem and_two_pow_eq (m k : Nat) : m &&& 2 ^ k = if m.testBit k then 2 ^ k else 0 := by
  apply Nat.eq_of_testBit_eq
  intro i
  by_cases h : m.testBit k
  · by_cases hik : k = i
    · subst hik; simp [h, Nat.testBit_two_pow]
    · simp [h, Nat.testBit_two_pow, hik]
  · by_cases hik : k = i
    · subst hik; simp [h, Nat.testBit_two_pow]
    · simp [h, Nat.testBit_two_pow, hik]

theorem and_two_pow_ne_zero (m k : Nat) : m &&& 2 ^ k ≠ 0 ↔ m.testBit k = true := by
  rw [and_two_pow_eq]
  by_cases h : m.testBit k
  · simp [h]
  · simp [h]

theorem testBit_gint_not (x i : Nat) (hx : x < 2 ^ 32) :
    (gint_not x).testBit i = (decide (i < 32) && !x.testBit i) := by
  have h1 : gint_not x = 2 ^ 32 - (x + 1) := by
    unfold gint_not
    rw [Nat.mod_eq_of_lt hx, Nat.mod_eq_of_lt (by omega)]
    omega
  rw [h1, Nat.testBit_two_pow_sub_succ hx]

theorem testBit_ge_32 (m i : Nat) (hm : m < 2 ^ 32) (hi : 32 ≤ i) : m.testBit i = false :=
  Nat.testBit_lt_two_pow (lt_of_lt_of_le hm (Nat.pow_le_pow_right (by decide) hi))

/-! ## Mouse buttons -/

theorem process_mouse_button_press_set (F : GDouble D) (data : Data D) (button mask : Nat)
    (h : button_mask button = some mask) (hz : data.mouse.buttons &&& mask ≠ 0) :
    process_mouse_button F button true data =
      (setButtons data ((data.mouse.buttons &&& gint_not mask) ||| mask),
       [Out.SendPointerEvent (F.toInt data.mouse.X) (F.toInt data.mouse.Y)
          (data.mouse.buttons &&& gint_not mask),
        Out.SendPointerEvent (F.toInt data.mouse.X) (F.toInt data.mouse.Y)
          ((data.mouse.buttons &&& gint_not mask) ||| mask)]) := by
  simp [process_mouse_button, h, hz, setButtons, sendPointer]

theorem process_mouse_button_press_clear (F : GDouble D) (data : Data D) (button mask : Nat)
    (h : button_mask button = some mask) (hz : data.mouse.buttons &&& mask = 0) :
    process_mouse_button F button true data =
      (setButtons data (data.mouse.buttons ||| mask),
       [Out.SendPointerEvent (F.toInt data.mouse.X) (F.toInt data.mouse.Y)
          (data.mouse.buttons ||| mask)]) := by
  simp [process_mouse_button, h, hz, setButtons, sendPointer]

theorem process_mouse_button_release_clear (F : GDouble D) (data : Data D) (button mask : Nat)
    (h : button_mask button = some mask) (hz : data.mouse.buttons &&& mask = 0) :
    process_mouse_button F button false data =
      (setButtons data ((data.mouse.buttons ||| mask) &&& gint_not mask),
       [Out.SendPointerEvent (F.toInt data.mouse.X) (F.toInt data.mouse.Y)
          (data.mouse.buttons ||| mask),
        Out.SendPointerEvent (F.toInt data.mouse.X) (F.toInt data.mouse.Y)
          ((data.mouse.buttons ||| mask) &&& gint_not mask)]) := by
  simp [process_mouse_button, h, hz, setButtons, sendPointer]

theorem process_mouse_button_release_set (F : GDouble D) (data : Data D) (button mask : Nat)
    (h : button_mask button = some mask) (hz : data.mouse.buttons &&& mask ≠ 0) :
    process_mouse_button F button false data =
      (setButtons data (data.mouse.buttons &&& gint_not mask),
       [Out.SendPointerEvent (F.toInt data.mouse.X) (F.toInt data.mouse.Y)
          (data.mouse.buttons &&& gint_not mask)]) := by
  simp [process_mouse_button, h, hz, setButtons, sendPointer]

theorem process_mouse_button_unknown (F : GDouble D) (data : Data D) (button : Nat)
    (pressed : Bool) (h : button_mask button = none) :
    process_mouse_button F button pressed data = (data, [Out.g_warning]) := by
  simp [process_mouse_button, h]

/-- C1: on a press or release of a known button whose bit `k` of the stored
mask already has the requested value, `process_mouse_button` emits exactly
two pointer updates, the first with bit `k` flipped and the second with bit
`k` at the requested value; otherwise it emits exactly one update with bit `k`
at the requested value.  Every emitted mask agrees with the stored mask on
all other bits, every update is sent at the stored cursor position, and
afterwards the record differs from the one before only in its mask, which is
the last emitted mask. -/
theorem process_mouse_button_edges (F : GDouble D) (data : Data D) (button k : Nat)
    (pressed : Bool) (hm : data.mouse.buttons < 2 ^ 32)
    (hb : (button = GDK_BUTTON_PRIMARY ∧ k = 0) ∨ (button = GDK_BUTTON_MIDDLE ∧ k = 1) ∨
      (button = GDK_BUTTON_SECONDARY ∧ k = 2)) :
    (data.mouse.buttons.testBit k = pressed →
      ∃ first last : Nat,
        (process_mouse_button F button pressed data).2 =
          [Out.SendPointerEvent (F.toInt data.mouse.X) (F.toInt data.mouse.Y) first,
           Out.SendPointerEvent (F.toInt data.mouse.X) (F.toInt data.mouse.Y) last] ∧
        first.testBit k = !pressed ∧ last.testBit k = pressed ∧
        (∀ i, i ≠ k → first.testBit i = data.mouse.buttons.testBit i) ∧
        (∀ i, i ≠ k → last.testBit i = data.mouse.buttons.testBit i) ∧
        (process_mouse_button F button pressed data).1 =
          { data with mouse := { data.mouse with buttons := last } }) ∧
    (data.mouse.buttons.testBit k ≠ pressed →
      ∃ last : Nat,
        (process_mouse_button F button pressed data).2 =
          [Out.SendPointerEvent (F.toInt data.mouse.X) (F.toInt data.mouse.Y) last] ∧
        last.testBit k = pressed ∧
        (∀ i, i ≠ k → last.testBit i = data.mouse.buttons.testBit i) ∧
        (process_mouse_button F button pressed data).1 =
          { data with mouse := { data.mouse with buttons := last } }) := by
  have hk : k < 32 ∧ button_mask button = some (2 ^ k) := by
    rcases hb with ⟨h1, h2⟩ | ⟨h1, h2⟩ | ⟨h1, h2⟩ <;> subst h1 <;> subst h2 <;>
      exact ⟨by decide, by decide⟩
  obtain ⟨hk32, hmask⟩ := hk
  have hpow : (2 : Nat) ^ k < 2 ^ 32 := Nat.pow_lt_pow_right (by decide) hk32
  have hnot : ∀ i, (gint_not (2 ^ k)).testBit i = (decide (i < 32) && !decide (k = i)) := by
    intro i
    rw [testBit_gint_not _ _ hpow, Nat.testBit_two_pow]
  have hhigh : ∀ i, ¬ i < 32 → data.mouse.buttons.testBit i = false := fun i hi =>
    testBit_ge_32 _ _ hm (by omega)
  have hclear : ∀ m : Nat, (∀ i, ¬ i < 32 → m.testBit i = false) →
      ∀ i, i ≠ k → (m &&& gint_not (2 ^ k)).testBit i = m.testBit i := by
    intro m hmhigh i hi
    by_cases h32 : i < 32
    · simp [hnot, Ne.symm hi, h32]
    · simp [hnot, Ne.symm hi, h32, hmhigh i h32]
  have hset : ∀ m i : Nat, i ≠ k → (m ||| 2 ^ k).testBit i = m.testBit i := by
    intro m i hi
    simp [Nat.testBit_two_pow, Ne.symm hi]
  constructor
  · intro hsame
    cases pressed
    · have hz : data.mouse.buttons &&& 2 ^ k = 0 := by
        have := (and_two_pow_ne_zero data.mouse.buttons k).not
        simpa [hsame] using this
      rw [process_mouse_button_release_clear F data button _ hmask hz]
      refine ⟨data.mouse.buttons ||| 2 ^ k,
        (data.mouse.buttons ||| 2 ^ k) &&& gint_not (2 ^ k), rfl, ?_, ?_, ?_, ?_, rfl⟩
      · simp [Nat.testBit_two_pow]
      · simp [hnot]
      · exact hset _
      · intro i hi
        rw [hclear _ _ i hi, hset _ i hi]
        intro j hj
        have : j ≠ k := by omega
        rw [hset _ j this, hhigh j hj]
    · have hz : data.mouse.buttons &&& 2 ^ k ≠ 0 :=
        (and_two_pow_ne_zero data.mouse.buttons k).mpr hsame
      rw [process_mouse_button_press_set F data button _ hmask hz]
      refine ⟨data.mouse.buttons &&& gint_not (2 ^ k),
        (data.mouse.buttons &&& gint_not (2 ^ k)) ||| 2 ^ k, rfl, ?_, ?_, ?_, ?_, rfl⟩
      · simp [hnot]
      · simp [Nat.testBit_two_pow]
      · exact hclear _ hhigh
      · intro i hi
        rw [hset _ i hi, hclear _ hhigh i hi]
  · intro hdiff
    cases pressed
    · have hz : data.mouse.buttons &&& 2 ^ k ≠ 0 := by
        rw [and_two_pow_ne_zero]; simpa using hdiff
      rw [process_mouse_button_release_set F data button _ hmask hz]
      refine ⟨data.mouse.buttons &&& gint_not (2 ^ k), rfl, ?_, ?_, rfl⟩
      · simp [hnot]
      · exact hclear _ hhigh
    · have hz : data.mouse.buttons &&& 2 ^ k = 0 := by
        have := (and_two_pow_ne_zero data.mouse.buttons k).not
        simpa [hdiff] using this
      rw [process_mouse_button_press_clear F data button _ hmask hz]
      refine ⟨data.mouse.buttons ||| 2 ^ k, rfl, ?_, ?_, rfl⟩
      · simp [Nat.testBit_two_pow]
      · exact hset _

/-- C6: for a button identifier other than primary, middle and secondary,
`process_mouse_button` (press and release alike) returns normally with the
session record unchanged and emits no pointer update: its only call is the
`g_warning` log. -/
theorem process_mouse_button_unknown_dropped (F : GDouble D) (data : Data D) (button : Nat)
    (pressed : Bool) (h1 : button ≠ GDK_BUTTON_PRIMARY) (h2 : button ≠ GDK_BUTTON_MIDDLE)
    (h3 : button ≠ GDK_BUTTON_SECONDARY) :
    process_mouse_button F button pressed data = (data, [Out.g_warning]) ∧
    pointerMasks (process_mouse_button F button pressed data).2 = [] ∧
    (process_mouse_button F button pressed data).1.mouse.buttons = data.mouse.buttons ∧
    (process_mouse_button F button pressed data).1.mouse.X = data.mouse.X ∧
    (process_mouse_button F button pressed data).1.mouse.Y = data.mouse.Y := by
  have h : button_mask button = none := by simp [button_mask, h1, h2, h3]
  rw [process_mouse_button_unknown F data button pressed h]
  exact ⟨rfl, rfl, rfl, rfl, rfl⟩

theorem process_mouse_button_unknown_dropped_witness :
    process_mouse_button exactDouble 8 true (init_data exactDouble) =
        (init_data exactDouble, [Out.g_warning]) ∧
    pointerMasks (process_mouse_button exactDouble 8 true (init_data exactDouble)).2 = [] ∧
    (process_mouse_button exactDouble 8 true (init_data exactDouble)).1.mouse.buttons =
      (init_data exactDouble).mouse.buttons ∧
    (process_mouse_button exactDouble 8 true (init_data exactDouble)).1.mouse.X =
      (init_data exactDouble).mouse.X ∧
    (process_mouse_button exactDouble 8 true (init_data exactDouble)).1.mouse.Y =
      (init_data exactDouble).mouse.Y :=
  process_mouse_button_unknown_dropped exactDouble (init_data exactDouble) 8 true
    (by decide) (by decide) (by decide)

theorem process_mouse_button_edges_witness :
    ∃ last : Nat,
      (process_mouse_button exactDouble 1 true (init_data exactDouble)).2 =
        [Out.SendPointerEvent (exactDouble.toInt (init_data exactDouble).mouse.X)
           (exactDouble.toInt (init_data exactDouble).mouse.Y) last] ∧
      last.testBit 0 = true ∧
      (∀ i, i ≠ 0 → last.testBit i = (init_data exactDouble).mouse.buttons.testBit i) ∧
      (process_mouse_button exactDouble 1 true (init_data exactDouble)).1 =
        { init_data exactDouble with
          mouse := { (init_data exactDouble).mouse with buttons := last } } :=
  (process_mouse_button_edges exactDouble (init_data exactDouble) 1 0 true (by decide)
    (Or.inl ⟨rfl, rfl⟩)).2 (by decide)

/-! ## Scroll and motion -/

theorem scroll_mask_eq (F : GDouble D) (dx dy : D) :
    scroll_mask F dx dy =
      (if F.lt dy (F.ofInt 0) then 8 else 0) ||| (if F.lt (F.ofInt 0) dy then 16 else 0) |||
      (if F.lt dx (F.ofInt 0) then 32 else 0) ||| (if F.lt (F.ofInt 0) dx then 64 else 0) := by
  unfold scroll_mask rfbWheelUpMask rfbWheelDownMask rfbWheelLeftMask rfbWheelRightMask
  have a1 := F.lt_asymm dy (F.ofInt 0)
  have a3 := F.lt_asymm dx (F.ofInt 0)
  cases h1 : F.lt dy (F.ofInt 0) <;> cases h2 : F.lt (F.ofInt 0) dy <;>
    cases h3 : F.lt dx (F.ofInt 0) <;> cases h4 : F.lt (F.ofInt 0) dx <;>
    simp_all

/-- C2: while captured, `handle_scroll` emits exactly two pointer updates at
the stored cursor position, the first with mask `m ||| t` and the second with
mask `(m ||| t) &&& ~t`, where `m` is the stored mask and `t` has bit 8 iff
`dy < 0`, bit 16 iff `dy > 0`, bit 32 iff `dx < 0`, bit 64 iff `dx > 0` and no
other bit; the cursor position is unchanged and the second mask is stored.
For `dy = -1`, `dx = 0` the first update has the wheel-up bit set and the
second has it clear.  While not captured it emits nothing and leaves the
record unchanged. -/
theorem handle_scroll_pulse (F : GDouble D) (dx dy : D) (data : Data D) :
    (data.status.inhibited = true →
      ∃ t : Nat,
        t = ((if F.lt dy (F.ofInt 0) then 8 else 0) ||| (if F.lt (F.ofInt 0) dy then 16 else 0) |||
          (if F.lt dx (F.ofInt 0) then 32 else 0) ||| (if F.lt (F.ofInt 0) dx then 64 else 0)) ∧
        handle_scroll F dx dy data =
          ({ data with mouse := { data.mouse with
              buttons := (data.mouse.buttons ||| t) &&& gint_not t } },
           [Out.SendPointerEvent (F.toInt data.mouse.X) (F.toInt data.mouse.Y)
              (data.mouse.buttons ||| t),
            Out.SendPointerEvent (F.toInt data.mouse.X) (F.toInt data.mouse.Y)
              ((data.mouse.buttons ||| t) &&& gint_not t)])) ∧
    (data.status.inhibited = true →
      (handle_scroll F (F.ofInt 0) (F.ofInt (-1)) data).2 =
        [Out.SendPointerEvent (F.toInt data.mouse.X) (F.toInt data.mouse.Y)
           (data.mouse.buttons ||| 8),
         Out.SendPointerEvent (F.toInt data.mouse.X) (F.toInt data.mouse.Y)
           ((data.mouse.buttons ||| 8) &&& gint_not 8)] ∧
      (data.mouse.buttons ||| 8).testBit 3 = true ∧
      ((data.mouse.buttons ||| 8) &&& gint_not 8).testBit 3 = false) ∧
    (data.status.inhibited = false → handle_scroll F dx dy data = (data, [])) := by
  refine ⟨?_, ?_, ?_⟩
  · intro h
    refine ⟨_, rfl, ?_⟩
    rw [← scroll_mask_eq]
    simp [handle_scroll, h, setButtons, sendPointer]
  · intro h
    have ht : scroll_mask F (F.ofInt 0) (F.ofInt (-1)) = 8 := by
      rw [scroll_mask_eq]
      have e1 := F.lt_ofInt (-1) 0 (by norm_num) (by norm_num) (by norm_num) (by norm_num)
      have e2 := F.lt_ofInt 0 (-1) (by norm_num) (by norm_num) (by norm_num) (by norm_num)
      have e3 := F.lt_ofInt 0 0 (by norm_num) (by norm_num) (by norm_num) (by norm_num)
      simp [e1, e2, e3]
    refine ⟨?_, ?_, ?_⟩
    · simp [handle_scroll, h, setButtons, sendPointer, ht]
    · have : (8 : Nat) = 2 ^ 3 := by norm_num
      rw [this, Nat.testBit_or, Nat.testBit_two_pow_self, Bool.or_true]
    · rw [Nat.testBit_and, testBit_gint_not 8 3 (by norm_num)]
      have : (8 : Nat) = 2 ^ 3 := by norm_num
      rw [this, Nat.testBit_two_pow_self]
      simp
  · intro h
    simp [handle_scroll, h]

theorem handle_scroll_pulse_witness :
    (handle_scroll exactDouble (exactDouble.ofInt 0) (exactDouble.ofInt (-1))
        (on_shortcuts_inhibited_notify true (init_data exactDouble))).2 =
      [Out.SendPointerEvent
         (exactDouble.toInt (on_shortcuts_inhibited_notify true (init_data exactDouble)).mouse.X)
         (exactDouble.toInt (on_shortcuts_inhibited_notify true (init_data exactDouble)).mouse.Y)
         ((on_shortcuts_inhibited_notify true (init_data exactDouble)).mouse.buttons ||| 8),
       Out.SendPointerEvent
         (exactDouble.toInt (on_shortcuts_inhibited_notify true (init_data exactDouble)).mouse.X)
         (exactDouble.toInt (on_shortcuts_inhibited_notify true (init_data exactDouble)).mouse.Y)
         (((on_shortcuts_inhibited_notify true (init_data exactDouble)).mouse.buttons ||| 8) &&&
           gint_not 8)] ∧
    ((on_shortcuts_inhibited_notify true (init_data exactDouble)).mouse.buttons ||| 8).testBit 3
      = true ∧
    (((on_shortcuts_inhibited_notify true (init_data exactDouble)).mouse.buttons ||| 8) &&&
      gint_not 8).testBit 3 = false :=
  (handle_scroll_pulse exactDouble (exactDouble.ofInt 0) (exactDouble.ofInt (-1))
    (on_shortcuts_inhibited_notify true (init_data exactDouble))).2.1 rfl

/-- C3: a click emits the same calls and leaves the same mouse record whether
the capture flag is false or true; a motion event emits nothing and leaves
the record unchanged when the flag is false, and when it is true emits
exactly one pointer update, at the scaled position, which it stores, and
carrying the stored mask, which it leaves unchanged. -/
theorem click_motion_asymmetry (F : GDouble D) (client : rfbClient) (data : Data D)
    (button : Nat) (pressed : Bool) (areaWidth areaHeight : Int) (x y : D) :
    ((process_mouse_button F button pressed (on_shortcuts_inhibited_notify false data)).2 =
        (process_mouse_button F button pressed (on_shortcuts_inhibited_notify true data)).2 ∧
      (process_mouse_button F button pressed (on_shortcuts_inhibited_notify false data)).1.mouse =
        (process_mouse_button F button pressed (on_shortcuts_inhibited_notify true data)).1.mouse) ∧
    handle_mouse_motion F client areaWidth areaHeight x y
        (on_shortcuts_inhibited_notify false data) =
      (on_shortcuts_inhibited_notify false data, []) ∧
    handle_mouse_motion F client areaWidth areaHeight x y
        (on_shortcuts_inhibited_notify true data) =
      ({ on_shortcuts_inhibited_notify true data with
          mouse := { buttons := data.mouse.buttons
                     X := F.div x (F.div (F.ofInt areaWidth) (F.ofInt client.width))
                     Y := F.div y (F.div (F.ofInt areaHeight) (F.ofInt client.height)) } },
       [Out.SendPointerEvent
          (F.toInt (F.div x (F.div (F.ofInt areaWidth) (F.ofInt client.width))))
          (F.toInt (F.div y (F.div (F.ofInt areaHeight) (F.ofInt client.height))))
          data.mouse.buttons]) := by
  refine ⟨?_, ?_, ?_⟩
  · cases hb : button_mask button with
    | none =>
      simp [process_mouse_button, hb, on_shortcuts_inhibited_notify]
    | some mask =>
      cases pressed <;>
        by_cases hz : data.mouse.buttons &&& mask = 0 <;>
        simp [process_mouse_button, hb, hz, on_shortcuts_inhibited_notify, setButtons,
          sendPointer]
  · simp [handle_mouse_motion, on_shortcuts_inhibited_notify]
  · simp [handle_mouse_motion, on_shortcuts_inhibited_notify, sendPointer]

/-! ## Clipboard and hotkey -/

theorem cstring_all_ne_zero (buf : List gchar) : ∀ c ∈ cstring buf, c ≠ 0 := by
  intro c hc
  have := List.mem_takeWhile_imp hc
  simpa using this

theorem cstring_g_strndup (str : List gchar) (n : Nat) :
    cstring (g_strndup str n) = cstring (str.take n) := by
  unfold g_strndup
  simp only
  unfold cstring
  rw [List.takeWhile_append_of_pos]
  · rw [List.takeWhile_replicate]
    simp
  · intro a ha
    have := List.mem_takeWhile_imp ha
    simpa using this

theorem cstring_eq_self (buf : List gchar) (h : ∀ c ∈ buf, c ≠ 0) : cstring buf = buf := by
  unfold cstring
  rw [List.takeWhile_eq_self_iff]
  intro x hx
  simpa using h x hx

/-- C10, counterexample: for the three bytes `a`, zero, `b` pushed with
length 3, the stored buffer holds `a` followed by zero bytes only, so its
first three bytes are not the first three bytes of the text. -/
theorem handle_clipboard_content_embedded_zero :
    (handle_clipboard_content (some [97, 0, 98]) 3 (init_data exactDouble)).clipboard.text =
      some [97, 0, 0, 0] ∧
    ¬ ∃ buf, (handle_clipboard_content (some [97, 0, 98]) 3
        (init_data exactDouble)).clipboard.text = some buf ∧
      buf.take 3 = List.take 3 [97, 0, 98] := by
  constructor
  · decide
  · rintro ⟨buf, h1, h2⟩
    have h3 : (handle_clipboard_content (some [97, 0, 98]) 3
        (init_data exactDouble)).clipboard.text = some [97, 0, 0, 0] := by decide
    rw [h3] at h1
    cases h1
    revert h2
    decide

/-- C10, amended: for a non-null text, `handle_clipboard_content` replaces
the stored text, whatever it was, by a fresh buffer of `textlen + 1` bytes
whose C string is the first `textlen` bytes of the text cut at their first
zero byte, and changes nothing else; when none of the first `textlen` bytes
is zero the buffer is exactly those bytes followed by zero bytes.  For a null
text the record is unchanged. -/
theorem handle_clipboard_content_copy (data : Data D) (text : List gchar) (textlen : Nat) :
    (∃ buf,
      handle_clipboard_content (some text) textlen data =
        { data with clipboard := { cb := data.clipboard.cb, text := some buf } } ∧
      buf = g_strndup text textlen ∧
      buf.length = textlen + 1 ∧
      cstring buf = (text.take textlen).takeWhile (fun c => c ≠ 0) ∧
      ((∀ c ∈ text.take textlen, c ≠ 0) →
        buf = text.take textlen ++ List.replicate (textlen + 1 - (text.take textlen).length) 0)) ∧
    (∀ other : Data D,
      (handle_clipboard_content (some text) textlen other).clipboard.text =
        (handle_clipboard_content (some text) textlen data).clipboard.text) ∧
    handle_clipboard_content none textlen data = data := by
  refine ⟨⟨g_strndup text textlen, rfl, rfl, ?_, ?_, ?_⟩, fun _ => rfl, rfl⟩
  · have hle : (cstring (text.take textlen)).length ≤ textlen := by
      have h1 : (cstring (text.take textlen)).length ≤ (text.take textlen).length := by
        unfold cstring
        exact (List.takeWhile_sublist _).length_le
      have h2 : (text.take textlen).length ≤ textlen := by simp
      omega
    simp only [g_strndup, List.length_append, List.length_replicate]
    omega
  · exact cstring_g_strndup text textlen
  · intro h
    simp only [g_strndup]
    rw [cstring_eq_self _ h]

theorem handle_clipboard_content_copy_witness :
    (handle_clipboard_content (some [104, 105]) 2 (init_data exactDouble)).clipboard.text =
      some [104, 105, 0] := by
  obtain ⟨⟨buf, h1, -, -, -, h5⟩, -, -⟩ :=
    handle_clipboard_content_copy (init_data exactDouble) [104, 105] 2
  rw [h1, h5 (by simp)]
  rfl

/-- C4, counterexample: after the window is mapped and the notification has
set the capture flag, with no text pushed by the remote side yet, a press of
the hotkey requests the incremental update only: no clipboard write is
issued. -/
theorem hotkey_press_without_remote_text :
    (run exactDouble ⟨1280, 720⟩ (on_map true true (init_data exactDouble))
        [Event.shortcuts_inhibited_notify true,
         Event.key_press GDK_KEY_Pause GDK_NO_MODIFIER_MASK]).2 =
      [Out.SendIncrementalFramebufferUpdateRequest] ∧
    (on_shortcuts_inhibited_notify true (on_map true true (init_data exactDouble))).status.inhibited
      = true ∧
    ¬ ∃ text, Out.gdk_clipboard_set_text text ∈
      (handle_key_press GDK_KEY_Pause GDK_NO_MODIFIER_MASK
        (on_shortcuts_inhibited_notify true (on_map true true (init_data exactDouble)))).2 := by
  refine ⟨by decide, by decide, ?_⟩
  rintro ⟨text, h⟩
  have h3 : (handle_key_press GDK_KEY_Pause GDK_NO_MODIFIER_MASK
      (on_shortcuts_inhibited_notify true (on_map true true (init_data exactDouble)))).2 =
      [Out.SendIncrementalFramebufferUpdateRequest] := by decide
  rw [h3] at h
  simp at h

/-- C4, amended: with a valid local clipboard, a press of the hotkey (Pause,
no modifier) leaves the record unchanged, sends no key event, and ends with
exactly one incremental framebuffer update request.  With the capture flag
false that request is preceded by a clipboard read request and nothing else;
with the flag true it is preceded by a clipboard write of the stored remote
text when one is stored, and by nothing when none is stored.  After a push
of `text` with length `n` the text written is the first `n` bytes of `text`
cut at their first zero byte. -/
theorem handle_key_press_hotkey (data : Data D) (hcb : data.clipboard.cb = true) :
    handle_key_press GDK_KEY_Pause GDK_NO_MODIFIER_MASK
        (on_shortcuts_inhibited_notify false data) =
      (on_shortcuts_inhibited_notify false data,
        [Out.gdk_clipboard_read_text_async, Out.SendIncrementalFramebufferUpdateRequest]) ∧
    (∀ buf, data.clipboard.text = some buf →
      handle_key_press GDK_KEY_Pause GDK_NO_MODIFIER_MASK
          (on_shortcuts_inhibited_notify true data) =
        (on_shortcuts_inhibited_notify true data,
          [Out.gdk_clipboard_set_text (cstring buf),
           Out.SendIncrementalFramebufferUpdateRequest])) ∧
    (data.clipboard.text = none →
      handle_key_press GDK_KEY_Pause GDK_NO_MODIFIER_MASK
          (on_shortcuts_inhibited_notify true data) =
        (on_shortcuts_inhibited_notify true data,
          [Out.SendIncrementalFramebufferUpdateRequest])) ∧
    (∀ (text : List gchar) (n : Nat),
      (handle_key_press GDK_KEY_Pause GDK_NO_MODIFIER_MASK
          (on_shortcuts_inhibited_notify true
            (handle_clipboard_content (some text) n data))).2 =
        [Out.gdk_clipboard_set_text ((text.take n).takeWhile (fun c => c ≠ 0)),
         Out.SendIncrementalFramebufferUpdateRequest]) := by
  refine ⟨?_, ?_, ?_, ?_⟩
  · simp [handle_key_press, on_shortcuts_inhibited_notify, send_clipboard_content, hcb]
  · intro buf hbuf
    simp [handle_key_press, on_shortcuts_inhibited_notify, write_clipboard_content, hcb, hbuf]
  · intro hnone
    simp [handle_key_press, on_shortcuts_inhibited_notify, write_clipboard_content, hcb, hnone]
  · intro text n
    have h := cstring_g_strndup text n
    unfold cstring at h
    simp only [handle_key_press, on_shortcuts_inhibited_notify, write_clipboard_content,
      handle_clipboard_content, hcb, cstring, h]
    simp

theorem handle_key_press_hotkey_witness :
    handle_key_press GDK_KEY_Pause GDK_NO_MODIFIER_MASK
        (on_shortcuts_inhibited_notify false (on_map true true (init_data exactDouble))) =
      (on_shortcuts_inhibited_notify false (on_map true true (init_data exactDouble)),
        [Out.gdk_clipboard_read_text_async, Out.SendIncrementalFramebufferUpdateRequest]) :=
  (handle_key_press_hotkey (on_map true true (init_data exactDouble)) rfl).1

/-! ## Whole sessions: wheel bits -/

theorem button_mask_cases (button mask : Nat) (h : button_mask button = some mask) :
    mask = 1 ∨ mask = 2 ∨ mask = 4 := by
  unfold button_mask at h
  split_ifs at h <;> simp_all [rfbButton1Mask, rfbButton2Mask, rfbButton3Mask]

theorem button_table (m mask : Nat) (hm : m < 8) (hmask : mask = 1 ∨ mask = 2 ∨ mask = 4) :
    m ||| mask < 8 ∧ m &&& gint_not mask < 8 ∧
    (m &&& gint_not mask) ||| mask = m ||| mask ∧
    (m ||| mask) &&& gint_not mask = m &&& gint_not mask := by
  interval_cases m <;> rcases hmask with rfl | rfl | rfl <;> decide

theorem small_clean (m : Nat) (hm : m < 8) : m &&& (8 ||| 16 ||| 32 ||| 64) = 0 := by
  interval_cases m <;> decide

theorem scroll_mask_mem (F : GDouble D) (dx dy : D) :
    scroll_mask F dx dy ∈ [0, 8, 16, 32, 64, 40, 72, 48, 80] := by
  unfold scroll_mask rfbWheelUpMask rfbWheelDownMask rfbWheelLeftMask rfbWheelRightMask
  cases F.lt dy (F.ofInt 0) <;> cases F.lt (F.ofInt 0) dy <;>
    cases F.lt dx (F.ofInt 0) <;> cases F.lt (F.ofInt 0) dx <;> decide

theorem scroll_table (m t : Nat) (hm : m < 8) (ht : t ∈ [0, 8, 16, 32, 64, 40, 72, 48, 80]) :
    (m ||| t) &&& gint_not t = m := by
  simp only [List.mem_cons, List.mem_singleton, List.not_mem_nil, or_false] at ht
  interval_cases m <;> rcases ht with rfl | rfl | rfl | rfl | rfl | rfl | rfl | rfl | rfl <;>
    decide

theorem pulsed_append (a b : List Out) (ha : pulsed a = true) (hb : pulsed b = true) :
    pulsed (a ++ b) = true := by
  induction a with
  | nil => simpa using hb
  | cons o a ih =>
    cases a with
    | nil =>
      simp only [pulsed, Bool.not_eq_true'] at ha
      cases b with
      | nil => simp [pulsed, ha]
      | cons o' b => simp [pulsed, ha, hb]
    | cons o' a =>
      simp only [pulsed, Bool.and_eq_true] at ha
      simp only [List.cons_append, pulsed, Bool.and_eq_true]
      exact ⟨ha.1, ih ha.2⟩

theorem pulsed_index (l : List Out) (h : pulsed l = true) (i : Nat) (x y : Int) (m : Nat)
    (hi : l[i]? = some (Out.SendPointerEvent x y m)) (hw : m &&& (8 ||| 16 ||| 32 ||| 64) ≠ 0) :
    ∃ x' y' m', l[i + 1]? = some (Out.SendPointerEvent x' y' m') ∧
      m' &&& (8 ||| 16 ||| 32 ||| 64) = 0 := by
  induction l generalizing i with
  | nil => simp at hi
  | cons o l ih =>
    cases l with
    | nil =>
      cases i with
      | zero =>
        simp only [List.getElem?_cons_zero, Option.some.injEq] at hi
        subst hi
        simp only [pulsed, hasWheel, Bool.not_eq_true', bne_eq_false_iff_eq, beq_iff_eq] at h
        exact (hw h).elim
      | succ i => simp at hi
    | cons o' l =>
      simp only [pulsed, Bool.and_eq_true, Bool.or_eq_true, Bool.not_eq_true'] at h
      cases i with
      | zero =>
        simp only [List.getElem?_cons_zero, Option.some.injEq] at hi
        subst hi
        rcases h.1 with h1 | h1
        · simp only [hasWheel, bne_eq_false_iff_eq, beq_iff_eq] at h1
          exact (hw h1).elim
        · cases o' with
          | SendPointerEvent x' y' m' =>
            refine ⟨x', y', m', by simp, ?_⟩
            simpa only [isClean, beq_iff_eq] using h1
          | _ => simp [isClean] at h1
      | succ i =>
        have := ih h.2 i (by simpa using hi)
        simpa using this

theorem pulsed_of_no_wheel (l : List Out) (h : ∀ o ∈ l, hasWheel o = false) :
    pulsed l = true := by
  induction l with
  | nil => rfl
  | cons o l ih =>
    cases l with
    | nil => simp [pulsed, h o (by simp)]
    | cons o' l =>
      simp only [pulsed, Bool.and_eq_true, Bool.or_eq_true, Bool.not_eq_true']
      exact ⟨Or.inl (h o (by simp)), ih (fun o1 ho1 => h o1 (by simp [ho1]))⟩

theorem small_clean_lit (m : Nat) (hm : m < 8) : m &&& 120 = 0 :=
  small_clean m hm

theorem hasWheel_small (x y : Int) (m : Nat) (hm : m < 8) :
    hasWheel (Out.SendPointerEvent x y m) = false := by
  simp [hasWheel, small_clean_lit m hm]

theorem isClean_small (x y : Int) (m : Nat) (hm : m < 8) :
    isClean (Out.SendPointerEvent x y m) = true := by
  simp [isClean, small_clean_lit m hm]

theorem handle_key_press_no_pointer (keyval state : Nat) (data : Data D) :
    (handle_key_press keyval state data).1 = data ∧
    ∀ o ∈ (handle_key_press keyval state data).2, hasWheel o = false := by
  unfold handle_key_press send_clipboard_content write_clipboard_content
  cases data.status.inhibited <;> cases data.clipboard.cb <;> cases data.clipboard.text <;>
    (split_ifs <;> simp [hasWheel])

theorem handle_key_release_no_pointer (keyval state : Nat) (data : Data D) :
    (handle_key_release keyval state data).1 = data ∧
    ∀ o ∈ (handle_key_release keyval state data).2, hasWheel o = false := by
  unfold handle_key_release inhibit_system_shortcuts restore_system_shortcuts
  cases data.status.inhibited <;> cases data.window.surface <;>
    (split_ifs <;> simp [hasWheel])

theorem process_mouse_button_small (F : GDouble D) (button : Nat) (pressed : Bool)
    (data : Data D) (h : data.mouse.buttons < 8) :
    (process_mouse_button F button pressed data).1.mouse.buttons < 8 ∧
    pulsed (process_mouse_button F button pressed data).2 = true := by
  cases hb : button_mask button with
  | none =>
    rw [process_mouse_button_unknown F data button pressed hb]
    exact ⟨h, rfl⟩
  | some mask =>
    obtain ⟨t1, t2, t3, t4⟩ := button_table _ mask h (button_mask_cases button mask hb)
    cases pressed <;> by_cases hz : data.mouse.buttons &&& mask = 0
    · rw [process_mouse_button_release_clear F data button mask hb hz]
      refine ⟨by simpa [setButtons, t4] using t2, ?_⟩
      simp [pulsed, isClean_small _ _ _ t2, hasWheel_small _ _ _ t2, t4]
    · rw [process_mouse_button_release_set F data button mask hb hz]
      refine ⟨by simpa [setButtons] using t2, ?_⟩
      simp [pulsed, hasWheel_small _ _ _ t2]
    · rw [process_mouse_button_press_clear F data button mask hb hz]
      refine ⟨by simpa [setButtons] using t1, ?_⟩
      simp [pulsed, hasWheel_small _ _ _ t1]
    · rw [process_mouse_button_press_set F data button mask hb hz]
      refine ⟨by simpa [setButtons, t3] using t1, ?_⟩
      simp [pulsed, isClean_small _ _ _ t1, hasWheel_small _ _ _ t1, t3]

theorem handle_scroll_small (F : GDouble D) (dx dy : D) (data : Data D)
    (h : data.mouse.buttons < 8) :
    (handle_scroll F dx dy data).1.mouse.buttons < 8 ∧
    pulsed (handle_scroll F dx dy data).2 = true := by
  have ht := scroll_table _ _ h (scroll_mask_mem F dx dy)
  cases hi : data.status.inhibited
  · simp [handle_scroll, hi, h, pulsed]
  · simp [handle_scroll, hi, setButtons, sendPointer, ht, h, pulsed, isClean_small _ _ _ h,
      hasWheel_small _ _ _ h]

theorem dispatch_small (F : GDouble D) (client : rfbClient) (e : Event D) (data : Data D)
    (h : data.mouse.buttons < 8) :
    (dispatch F client e data).1.mouse.buttons < 8 ∧
    pulsed (dispatch F client e data).2 = true := by
  cases e with
  | mouse_press button => exact process_mouse_button_small F button true data h
  | mouse_release button => exact process_mouse_button_small F button false data h
  | mouse_motion w h' x y =>
    cases hi : data.status.inhibited
    · simp [dispatch, handle_mouse_motion, hi, h, pulsed]
    · simp [dispatch, handle_mouse_motion, hi, h, pulsed, sendPointer, hasWheel_small _ _ _ h]
  | scroll dx dy => exact handle_scroll_small F dx dy data h
  | shortcuts_inhibited_notify b =>
    simp [dispatch, on_shortcuts_inhibited_notify, h, pulsed]
  | key_press keyval state =>
    obtain ⟨h1, h2⟩ := handle_key_press_no_pointer keyval state data
    exact ⟨by simpa [dispatch, h1] using h, pulsed_of_no_wheel _ h2⟩
  | key_release keyval state =>
    obtain ⟨h1, h2⟩ := handle_key_release_no_pointer keyval state data
    exact ⟨by simpa [dispatch, h1] using h, pulsed_of_no_wheel _ h2⟩
  | clipboard_content text textlen =>
    refine ⟨?_, rfl⟩
    cases text <;> simpa [dispatch, handle_clipboard_content] using h

theorem run_small (F : GDouble D) (client : rfbClient) (es : List (Event D)) (data : Data D)
    (h : data.mouse.buttons < 8) :
    (run F client data es).1.mouse.buttons < 8 ∧ pulsed (run F client data es).2 = true := by
  induction es generalizing data with
  | nil => exact ⟨h, rfl⟩
  | cons e es ih =>
    obtain ⟨h1, h2⟩ := dispatch_small F client e data h
    obtain ⟨h3, h4⟩ := ih (dispatch F client e data).1 h1
    exact ⟨h3, pulsed_append _ _ h2 h4⟩

/-- C7: in a session started with mask 0, after any sequence of events the
stored mask has none of the wheel bits 8, 16, 32, 64 set, and every pointer
update whose mask has a wheel bit set is directly followed, among the calls
made, by a pointer update whose mask has every wheel bit clear. -/
theorem wheel_bits_pulsed (F : GDouble D) (client : rfbClient) (data : Data D)
    (h0 : data.mouse.buttons = 0) (es : List (Event D)) :
    (run F client data es).1.mouse.buttons &&& (8 ||| 16 ||| 32 ||| 64) = 0 ∧
    ∀ (i : Nat) (x y : Int) (m : Nat),
      (run F client data es).2[i]? = some (Out.SendPointerEvent x y m) →
      m &&& (8 ||| 16 ||| 32 ||| 64) ≠ 0 →
      ∃ x' y' m', (run F client data es).2[i + 1]? = some (Out.SendPointerEvent x' y' m') ∧
        m' &&& (8 ||| 16 ||| 32 ||| 64) = 0 := by
  obtain ⟨h1, h2⟩ := run_small F client es data (by omega)
  exact ⟨small_clean _ h1, fun i x y m hi hw => pulsed_index _ h2 i x y m hi hw⟩

theorem gint_not_lt (x : Nat) : gint_not x < 2 ^ 32 :=
  Nat.mod_lt _ (by norm_num)

/-- The stored mask stays a 32-bit pattern under every handler. -/
theorem dispatch_gint_range (F : GDouble D) (client : rfbClient) (e : Event D) (data : Data D)
    (h : data.mouse.buttons < 2 ^ 32) : (dispatch F client e data).1.mouse.buttons < 2 ^ 32 := by
  have hpmb : ∀ button pressed,
      (process_mouse_button F button pressed data).1.mouse.buttons < 2 ^ 32 := by
    intro button pressed
    cases hb : button_mask button with
    | none => rw [process_mouse_button_unknown F data button pressed hb]; exact h
    | some mask =>
      have hmask : mask < 2 ^ 32 := by
        rcases button_mask_cases button mask hb with rfl | rfl | rfl <;> norm_num
      cases pressed <;> by_cases hz : data.mouse.buttons &&& mask = 0
      · rw [process_mouse_button_release_clear F data button mask hb hz]
        exact Nat.and_lt_two_pow _ (gint_not_lt mask)
      · rw [process_mouse_button_release_set F data button mask hb hz]
        exact Nat.and_lt_two_pow _ (gint_not_lt mask)
      · rw [process_mouse_button_press_clear F data button mask hb hz]
        exact Nat.or_lt_two_pow h hmask
      · rw [process_mouse_button_press_set F data button mask hb hz]
        exact Nat.or_lt_two_pow (Nat.and_lt_two_pow _ (gint_not_lt mask)) hmask
  cases e with
  | mouse_press button => exact hpmb button true
  | mouse_release button => exact hpmb button false
  | mouse_motion w h' x y =>
    cases hi : data.status.inhibited <;> simpa [dispatch, handle_mouse_motion, hi] using h
  | scroll dx dy =>
    cases hi : data.status.inhibited
    · simpa [dispatch, handle_scroll, hi] using h
    · simp only [dispatch, handle_scroll, hi, if_true, setButtons]
      exact Nat.and_lt_two_pow _ (gint_not_lt _)
  | shortcuts_inhibited_notify b => simpa [dispatch, on_shortcuts_inhibited_notify] using h
  | key_press keyval state =>
    rw [dispatch, (handle_key_press_no_pointer keyval state data).1]; exact h
  | key_release keyval state =>
    rw [dispatch, (handle_key_release_no_pointer keyval state data).1]; exact h
  | clipboard_content text textlen =>
    cases text <;> simpa [dispatch, handle_clipboard_content] using h

/-! ## Whole sessions: edges -/

theorem run_append (F : GDouble D) (client : rfbClient) (data : Data D)
    (a b : List (Event D)) :
    run F client data (a ++ b) =
      ((run F client (run F client data a).1 b).1,
       (run F client data a).2 ++ (run F client (run F client data a).1 b).2) := by
  induction a generalizing data with
  | nil => simp [run]
  | cons e a ih => simp [run, ih, List.append_assoc]

theorem run_concat (F : GDouble D) (client : rfbClient) (data : Data D)
    (pre : List (Event D)) (e : Event D) :
    run F client data (pre ++ [e]) =
      ((dispatch F client e (run F client data pre).1).1,
       (run F client data pre).2 ++ (dispatch F client e (run F client data pre).1).2) := by
  rw [run_append]
  simp [run]

theorem pointerMasks_append (a b : List Out) :
    pointerMasks (a ++ b) = pointerMasks a ++ pointerMasks b := by
  induction a with
  | nil => rfl
  | cons o a ih => cases o <;> simp [pointerMasks, ih]

theorem pointerMasks_of_no_pointer (l : List Out)
    (h : ∀ o ∈ l, ∀ x y m, o ≠ Out.SendPointerEvent x y m) : pointerMasks l = [] := by
  induction l with
  | nil => rfl
  | cons o l ih =>
    cases o with
    | SendPointerEvent x y m => exact absurd rfl (h _ (by simp) x y m)
    | _ => simpa [pointerMasks] using ih (fun o ho => h o (by simp [ho]))

theorem handle_key_press_masks (keyval state : Nat) (data : Data D) :
    pointerMasks (handle_key_press keyval state data).2 = [] := by
  unfold handle_key_press send_clipboard_content write_clipboard_content
  cases data.status.inhibited <;> cases data.clipboard.cb <;> cases data.clipboard.text <;>
    (split_ifs <;> simp [pointerMasks])

theorem handle_key_release_masks (keyval state : Nat) (data : Data D) :
    pointerMasks (handle_key_release keyval state data).2 = [] := by
  unfold handle_key_release inhibit_system_shortcuts restore_system_shortcuts
  cases data.status.inhibited <;> cases data.window.surface <;>
    (split_ifs <;> simp [pointerMasks])

/-- What `dispatch` emits and stores, by event and by stored mask. -/
theorem dispatch_masks (F : GDouble D) (client : rfbClient) (e : Event D) (data : Data D) :
    (pointerMasks (dispatch F client e data).2 = [] ∧
      (dispatch F client e data).1.mouse.buttons = data.mouse.buttons) ∨
    (∃ m1, pointerMasks (dispatch F client e data).2 = [m1] ∧
      (dispatch F client e data).1.mouse.buttons = m1) ∨
    (∃ m1 m2, pointerMasks (dispatch F client e data).2 = [m1, m2] ∧
      (dispatch F client e data).1.mouse.buttons = m2) := by
  have hpmb : ∀ button pressed,
      (pointerMasks (process_mouse_button F button pressed data).2 = [] ∧
        (process_mouse_button F button pressed data).1.mouse.buttons = data.mouse.buttons) ∨
      (∃ m1, pointerMasks (process_mouse_button F button pressed data).2 = [m1] ∧
        (process_mouse_button F button pressed data).1.mouse.buttons = m1) ∨
      (∃ m1 m2, pointerMasks (process_mouse_button F button pressed data).2 = [m1, m2] ∧
        (process_mouse_button F button pressed data).1.mouse.buttons = m2) := by
    intro button pressed
    cases hb : button_mask button with
    | none =>
      rw [process_mouse_button_unknown F data button pressed hb]
      exact Or.inl ⟨rfl, rfl⟩
    | some mask =>
      cases pressed <;> by_cases hz : data.mouse.buttons &&& mask = 0
      · rw [process_mouse_button_release_clear F data button mask hb hz]
        exact Or.inr (Or.inr ⟨_, _, rfl, rfl⟩)
      · rw [process_mouse_button_release_set F data button mask hb hz]
        exact Or.inr (Or.inl ⟨_, rfl, rfl⟩)
      · rw [process_mouse_button_press_clear F data button mask hb hz]
        exact Or.inr (Or.inl ⟨_, rfl, rfl⟩)
      · rw [process_mouse_button_press_set F data button mask hb hz]
        exact Or.inr (Or.inr ⟨_, _, rfl, rfl⟩)
  cases e with
  | mouse_press button => exact hpmb button true
  | mouse_release button => exact hpmb button false
  | mouse_motion w h x y =>
    cases hi : data.status.inhibited
    · exact Or.inl (by simp [dispatch, handle_mouse_motion, hi, pointerMasks])
    · exact Or.inr (Or.inl ⟨data.mouse.buttons,
        by simp [dispatch, handle_mouse_motion, hi, pointerMasks, sendPointer]⟩)
  | scroll dx dy =>
    cases hi : data.status.inhibited
    · exact Or.inl (by simp [dispatch, handle_scroll, hi, pointerMasks])
    · exact Or.inr (Or.inr ⟨data.mouse.buttons ||| scroll_mask F dx dy,
        (data.mouse.buttons ||| scroll_mask F dx dy) &&& gint_not (scroll_mask F dx dy),
        by simp [dispatch, handle_scroll, hi, pointerMasks, sendPointer, setButtons]⟩)
  | shortcuts_inhibited_notify b =>
    exact Or.inl (by simp [dispatch, on_shortcuts_inhibited_notify, pointerMasks])
  | key_press keyval state =>
    exact Or.inl ⟨handle_key_press_masks keyval state data,
      by rw [dispatch, (handle_key_press_no_pointer keyval state data).1]⟩
  | key_release keyval state =>
    exact Or.inl ⟨handle_key_release_masks keyval state data,
      by rw [dispatch, (handle_key_release_no_pointer keyval state data).1]⟩
  | clipboard_content text textlen =>
    refine Or.inl ⟨rfl, ?_⟩
    cases text <;> rfl

theorem dispatch_last (F : GDouble D) (client : rfbClient) (e : Event D) (data : Data D)
    (ms : List Nat) (h : ms.getLast? = some data.mouse.buttons) :
    (ms ++ pointerMasks (dispatch F client e data).2).getLast? =
      some (dispatch F client e data).1.mouse.buttons := by
  rcases dispatch_masks F client e data with ⟨h1, h2⟩ | ⟨m1, h1, h2⟩ | ⟨m1, m2, h1, h2⟩
  · rw [h1, h2, List.append_nil, h]
  · rw [h1, h2]; simp
  · rw [h1, h2]; simp

theorem run_last (F : GDouble D) (client : rfbClient) (es : List (Event D)) (data : Data D)
    (ms : List Nat) (h : ms.getLast? = some data.mouse.buttons) :
    (ms ++ pointerMasks (run F client data es).2).getLast? =
      some (run F client data es).1.mouse.buttons := by
  induction es generalizing data ms with
  | nil => simpa [run, pointerMasks] using h
  | cons e es ih =>
    have h1 := dispatch_last F client e data ms h
    have h2 := ih (dispatch F client e data).1 _ h1
    simpa [run, pointerMasks_append, List.append_assoc] using h2

theorem known_button_mask (button k : Nat)
    (hb : (button = GDK_BUTTON_PRIMARY ∧ k = 0) ∨ (button = GDK_BUTTON_MIDDLE ∧ k = 1) ∨
      (button = GDK_BUTTON_SECONDARY ∧ k = 2)) :
    k < 32 ∧ button_mask button = some (2 ^ k) := by
  rcases hb with ⟨h1, h2⟩ | ⟨h1, h2⟩ | ⟨h1, h2⟩ <;> subst h1 <;> subst h2 <;>
    exact ⟨by decide, by decide⟩

theorem testBit_or_two_pow_self (m k : Nat) : (m ||| 2 ^ k).testBit k = true := by
  rw [Nat.testBit_or, Nat.testBit_two_pow_self, Bool.or_true]

theorem testBit_and_not_two_pow_self (m k : Nat) (hk : k < 32) :
    (m &&& gint_not (2 ^ k)).testBit k = false := by
  rw [Nat.testBit_and, testBit_gint_not _ _ (Nat.pow_lt_pow_right (by decide) hk),
    Nat.testBit_two_pow_self]
  simp

theorem testBit_of_and_two_pow (m k : Nat) :
    (m &&& 2 ^ k = 0 → m.testBit k = false) ∧ (m &&& 2 ^ k ≠ 0 → m.testBit k = true) := by
  constructor
  · intro h
    have := (and_two_pow_ne_zero m k).not
    simpa [h] using this
  · exact (and_two_pow_ne_zero m k).mp

/-- C8: in a session started with mask 0, take the masks of all pointer
updates sent up to and including those of a press of a known button (bit `k`),
prefixed by 0.  That sequence ends with two masks `p`, `q` where `q`, the last
update of the press, has bit `k` set and `p`, the mask just before it, has bit
`k` clear.  Symmetrically for a release it ends with `p`, `q` where `q`, the
last update of the release, has bit `k` clear and `p` has bit `k` set. -/
theorem press_release_clean_edges (F : GDouble D) (client : rfbClient) (data : Data D)
    (h0 : data.mouse.buttons = 0) (pre : List (Event D)) (button k : Nat)
    (hb : (button = GDK_BUTTON_PRIMARY ∧ k = 0) ∨ (button = GDK_BUTTON_MIDDLE ∧ k = 1) ∨
      (button = GDK_BUTTON_SECONDARY ∧ k = 2)) :
    (∃ (l : List Nat) (p q : Nat),
      0 :: pointerMasks (run F client data (pre ++ [Event.mouse_press button])).2 =
        l ++ [p, q] ∧
      (pointerMasks (handle_mouse_press F button (run F client data pre).1).2).getLast? =
        some q ∧
      p.testBit k = false ∧ q.testBit k = true) ∧
    (∃ (l : List Nat) (p q : Nat),
      0 :: pointerMasks (run F client data (pre ++ [Event.mouse_release button])).2 =
        l ++ [p, q] ∧
      (pointerMasks (handle_mouse_release F button (run F client data pre).1).2).getLast? =
        some q ∧
      p.testBit k = true ∧ q.testBit k = false) := by
  obtain ⟨hk, hmask⟩ := known_button_mask button k hb
  have hJ := run_last F client pre data [0] (by simp [h0])
  obtain ⟨l0, hl0⟩ := List.getLast?_eq_some_iff.1 hJ
  have hcons : ∀ tail : List Nat,
      0 :: (pointerMasks (run F client data pre).2 ++ tail) =
        l0 ++ ((run F client data pre).1.mouse.buttons :: tail) := by
    intro tail
    have : 0 :: (pointerMasks (run F client data pre).2 ++ tail) =
        ([0] ++ pointerMasks (run F client data pre).2) ++ tail := by simp
    rw [this, hl0]
    simp
  obtain ⟨hclear, hset⟩ := testBit_of_and_two_pow (run F client data pre).1.mouse.buttons k
  constructor
  · rw [run_concat, pointerMasks_append]
    simp only [dispatch, handle_mouse_press]
    by_cases hz : (run F client data pre).1.mouse.buttons &&& 2 ^ k = 0
    · rw [process_mouse_button_press_clear F _ button _ hmask hz]
      simp only [pointerMasks]
      exact ⟨l0, (run F client data pre).1.mouse.buttons,
        (run F client data pre).1.mouse.buttons ||| 2 ^ k, hcons _, rfl, hclear hz,
        testBit_or_two_pow_self _ _⟩
    · rw [process_mouse_button_press_set F _ button _ hmask hz]
      simp only [pointerMasks]
      refine ⟨l0 ++ [(run F client data pre).1.mouse.buttons],
        (run F client data pre).1.mouse.buttons &&& gint_not (2 ^ k),
        ((run F client data pre).1.mouse.buttons &&& gint_not (2 ^ k)) ||| 2 ^ k, ?_, rfl,
        testBit_and_not_two_pow_self _ _ hk, testBit_or_two_pow_self _ _⟩
      rw [hcons]
      simp
  · rw [run_concat, pointerMasks_append]
    simp only [dispatch, handle_mouse_release]
    by_cases hz : (run F client data pre).1.mouse.buttons &&& 2 ^ k = 0
    · rw [process_mouse_button_release_clear F _ button _ hmask hz]
      simp only [pointerMasks]
      refine ⟨l0 ++ [(run F client data pre).1.mouse.buttons],
        (run F client data pre).1.mouse.buttons ||| 2 ^ k,
        ((run F client data pre).1.mouse.buttons ||| 2 ^ k) &&& gint_not (2 ^ k), ?_, rfl,
        testBit_or_two_pow_self _ _, testBit_and_not_two_pow_self _ _ hk⟩
      rw [hcons]
      simp
    · rw [process_mouse_button_release_set F _ button _ hmask hz]
      simp only [pointerMasks]
      exact ⟨l0, (run F client data pre).1.mouse.buttons,
        (run F client data pre).1.mouse.buttons &&& gint_not (2 ^ k), hcons _, rfl, hset hz,
        testBit_and_not_two_pow_self _ _ hk⟩

/-! ## Whole sessions: held buttons -/

theorem held_concat_press (b b' : Nat) (pre : List (Event D)) :
    held b (pre ++ [Event.mouse_press b']) = if b' = b then true else held b pre := by
  unfold held lastClick
  rw [List.foldl_append]
  by_cases h : b' = b <;> simp [h]

theorem held_concat_release (b b' : Nat) (pre : List (Event D)) :
    held b (pre ++ [Event.mouse_release b']) = if b' = b then false else held b pre := by
  unfold held lastClick
  rw [List.foldl_append]
  by_cases h : b' = b <;> simp [h]

theorem held_concat_other (b : Nat) (pre : List (Event D)) (e : Event D)
    (h1 : ∀ b', e ≠ Event.mouse_press b') (h2 : ∀ b', e ≠ Event.mouse_release b') :
    held b (pre ++ [e]) = held b pre := by
  unfold held lastClick
  rw [List.foldl_append]
  cases e with
  | mouse_press b' => exact absurd rfl (h1 b')
  | mouse_release b' => exact absurd rfl (h2 b')
  | _ => rfl

theorem heldMask_concat_other (pre : List (Event D)) (e : Event D)
    (h1 : ∀ b', e ≠ Event.mouse_press b') (h2 : ∀ b', e ≠ Event.mouse_release b') :
    heldMask (pre ++ [e]) = heldMask pre := by
  unfold heldMask
  simp only [held_concat_other _ pre e h1 h2]

theorem button_mask_some (button mask : Nat) (h : button_mask button = some mask) :
    (button = 1 ∧ mask = 1) ∨ (button = 2 ∧ mask = 2) ∨ (button = 3 ∧ mask = 4) := by
  unfold button_mask at h
  split_ifs at h <;>
    simp_all [rfbButton1Mask, rfbButton2Mask, rfbButton3Mask, GDK_BUTTON_PRIMARY,
      GDK_BUTTON_MIDDLE, GDK_BUTTON_SECONDARY]

theorem button_mask_none (button : Nat) (h : button_mask button = none) :
    button ≠ 1 ∧ button ≠ 2 ∧ button ≠ 3 := by
  unfold button_mask at h
  split_ifs at h
  simp_all [GDK_BUTTON_PRIMARY, GDK_BUTTON_MIDDLE, GDK_BUTTON_SECONDARY]

theorem heldMask_lt (es : List (Event D)) : heldMask es < 8 := by
  unfold heldMask rfbButton1Mask rfbButton2Mask rfbButton3Mask
  cases held GDK_BUTTON_PRIMARY es <;> cases held GDK_BUTTON_MIDDLE es <;>
    cases held GDK_BUTTON_SECONDARY es <;> decide

theorem heldMask_press (pre : List (Event D)) (button mask : Nat)
    (h : button_mask button = some mask) :
    heldMask (pre ++ [Event.mouse_press button]) = heldMask pre ||| mask := by
  unfold heldMask rfbButton1Mask rfbButton2Mask rfbButton3Mask GDK_BUTTON_PRIMARY
    GDK_BUTTON_MIDDLE GDK_BUTTON_SECONDARY
  simp only [held_concat_press]
  rcases button_mask_some button mask h with ⟨rfl, rfl⟩ | ⟨rfl, rfl⟩ | ⟨rfl, rfl⟩ <;>
    cases held 1 pre <;> cases held 2 pre <;> cases held 3 pre <;> decide

theorem heldMask_release (pre : List (Event D)) (button mask : Nat)
    (h : button_mask button = some mask) :
    heldMask (pre ++ [Event.mouse_release button]) = heldMask pre &&& gint_not mask := by
  unfold heldMask rfbButton1Mask rfbButton2Mask rfbButton3Mask GDK_BUTTON_PRIMARY
    GDK_BUTTON_MIDDLE GDK_BUTTON_SECONDARY
  simp only [held_concat_release]
  rcases button_mask_some button mask h with ⟨rfl, rfl⟩ | ⟨rfl, rfl⟩ | ⟨rfl, rfl⟩ <;>
    cases held 1 pre <;> cases held 2 pre <;> cases held 3 pre <;> decide

theorem heldMask_unknown (pre : List (Event D)) (button : Nat)
    (h : button_mask button = none) :
    heldMask (pre ++ [Event.mouse_press button]) = heldMask pre ∧
    heldMask (pre ++ [Event.mouse_release button]) = heldMask pre := by
  obtain ⟨h1, h2, h3⟩ := button_mask_none button h
  unfold heldMask GDK_BUTTON_PRIMARY GDK_BUTTON_MIDDLE GDK_BUTTON_SECONDARY
  simp [held_concat_press, held_concat_release, h1, h2, h3]

theorem heldMask_and_mask (pre : List (Event D)) (button mask : Nat)
    (h : button_mask button = some mask) :
    (heldMask pre &&& mask = 0 ↔ held button pre = false) := by
  unfold heldMask rfbButton1Mask rfbButton2Mask rfbButton3Mask GDK_BUTTON_PRIMARY
    GDK_BUTTON_MIDDLE GDK_BUTTON_SECONDARY
  rcases button_mask_some button mask h with ⟨rfl, rfl⟩ | ⟨rfl, rfl⟩ | ⟨rfl, rfl⟩ <;>
    cases held 1 pre <;> cases held 2 pre <;> cases held 3 pre <;> decide

theorem bound_table (m mask : Nat) (hm : m < 8) (hmask : mask = 1 ∨ mask = 2 ∨ mask = 4) :
    (m &&& gint_not mask) &&& (m ||| mask ||| 0) = m &&& gint_not mask ∧
    ((m &&& gint_not mask) ||| mask) &&& (m ||| mask ||| 0) = (m &&& gint_not mask) ||| mask ∧
    (m ||| mask) &&& (m ||| mask ||| 0) = m ||| mask ∧
    (m ||| mask) &&& (m &&& gint_not mask ||| mask) = m ||| mask ∧
    ((m ||| mask) &&& gint_not mask) &&& (m &&& gint_not mask ||| 0) =
      (m ||| mask) &&& gint_not mask ∧
    (m &&& gint_not mask) &&& (m &&& gint_not mask ||| 0) = m &&& gint_not mask := by
  interval_cases m <;> rcases hmask with rfl | rfl | rfl <;> decide

theorem bound_nil (H T : Nat) (i m : Nat) (h : ([] : List Nat)[i]? = some m) :
    m &&& (H ||| if i = 0 then T else 0) = m := by
  simp at h

theorem bound_single (H T m1 : Nat) (h1 : m1 &&& (H ||| T) = m1) (i m : Nat)
    (h : [m1][i]? = some m) : m &&& (H ||| if i = 0 then T else 0) = m := by
  cases i with
  | zero =>
    simp only [List.getElem?_cons_zero, Option.some.injEq] at h
    subst h
    simpa using h1
  | succ i => simp at h

theorem bound_pair (H T m1 m2 : Nat) (h1 : m1 &&& (H ||| T) = m1)
    (h2 : m2 &&& (H ||| 0) = m2) (i m : Nat) (h : [m1, m2][i]? = some m) :
    m &&& (H ||| if i = 0 then T else 0) = m := by
  cases i with
  | zero =>
    simp only [List.getElem?_cons_zero, Option.some.injEq] at h
    subst h
    simpa using h1
  | succ i =>
    cases i with
    | zero =>
      simp only [List.getElem?_cons_succ, List.getElem?_cons_zero, Option.some.injEq] at h
      subst h
      simpa using h2
    | succ i => simp at h

theorem and_or_zero_self (m : Nat) : m &&& (m ||| 0) = m := by
  simp

theorem process_mouse_button_held (F : GDouble D) (button : Nat) (pressed : Bool)
    (data : Data D) (pre : List (Event D)) (hd : data.mouse.buttons = heldMask pre) :
    (process_mouse_button F button pressed data).1.mouse.buttons =
      heldMask (pre ++ [if pressed then Event.mouse_press button
        else Event.mouse_release button]) ∧
    ∀ i m, (pointerMasks (process_mouse_button F button pressed data).2)[i]? = some m →
      m &&& (heldMask (pre ++ [if pressed then Event.mouse_press button
          else Event.mouse_release button]) |||
        if i = 0 then (if pressed then 0
          else if held button pre then 0 else (button_mask button).getD 0) else 0) = m := by
  have hm8 : data.mouse.buttons < 8 := hd ▸ heldMask_lt pre
  cases hb : button_mask button with
  | none =>
    rw [process_mouse_button_unknown F data button pressed hb]
    obtain ⟨u1, u2⟩ := heldMask_unknown pre button hb
    cases pressed
    · exact ⟨by simpa [u2] using hd, fun i m h => bound_nil _ _ i m h⟩
    · exact ⟨by simpa [u1] using hd, fun i m h => bound_nil _ _ i m h⟩
  | some mask =>
    have hmask := button_mask_cases button mask hb
    obtain ⟨t1, t2, t3, t4⟩ := button_table _ mask hm8 hmask
    obtain ⟨b1, b2, b3, b4, b5, b6⟩ := bound_table _ mask hm8 hmask
    have hheld := heldMask_and_mask pre button mask hb
    rw [← hd] at hheld
    cases pressed <;> by_cases hz : data.mouse.buttons &&& mask = 0
    · rw [process_mouse_button_release_clear F data button mask hb hz]
      simp only [Bool.false_eq_true, if_false, heldMask_release pre button mask hb, ← hd,
        hheld.mp hz, Option.getD_some, pointerMasks, setButtons]
      exact ⟨t4, fun i m h => bound_pair _ _ _ _ b4 b5 i m h⟩
    · rw [process_mouse_button_release_set F data button mask hb hz]
      have hh : held button pre = true := by
        cases hc : held button pre
        · exact absurd (hheld.mpr hc) hz
        · rfl
      simp only [Bool.false_eq_true, if_false, heldMask_release pre button mask hb, ← hd,
        hh, if_true, pointerMasks, setButtons]
      exact ⟨trivial, fun i m h => bound_single _ _ _ b6 i m h⟩
    · rw [process_mouse_button_press_clear F data button mask hb hz]
      simp only [if_true, heldMask_press pre button mask hb, ← hd, pointerMasks, setButtons]
      exact ⟨trivial, fun i m h => bound_single _ _ _ b3 i m h⟩
    · rw [process_mouse_button_press_set F data button mask hb hz]
      simp only [if_true, heldMask_press pre button mask hb, ← hd, pointerMasks, setButtons]
      exact ⟨t3, fun i m h => bound_pair _ _ _ _ b1 b2 i m h⟩

theorem dispatch_held (F : GDouble D) (client : rfbClient) (e : Event D) (data : Data D)
    (pre : List (Event D)) (hd : data.mouse.buttons = heldMask pre) :
    (dispatch F client e data).1.mouse.buttons = heldMask (pre ++ [e]) ∧
    ∀ i m, (pointerMasks (dispatch F client e data).2)[i]? = some m →
      m &&& (heldMask (pre ++ [e]) ||| if i = 0 then transientBits F pre e else 0) = m := by
  have hm8 : data.mouse.buttons < 8 := hd ▸ heldMask_lt pre
  cases e with
  | mouse_press button =>
    have := process_mouse_button_held F button true data pre hd
    simpa [dispatch, handle_mouse_press, transientBits] using this
  | mouse_release button =>
    have := process_mouse_button_held F button false data pre hd
    simpa [dispatch, handle_mouse_release, transientBits] using this
  | mouse_motion w h x y =>
    rw [heldMask_concat_other pre _ (by intro b; simp) (by intro b; simp), ← hd]
    cases hi : data.status.inhibited
    · simp [dispatch, handle_mouse_motion, hi, pointerMasks]
    · simp only [dispatch, handle_mouse_motion, hi, if_true, pointerMasks, sendPointer]
      exact ⟨trivial, fun i m h => bound_single _ _ _ (by simp [transientBits]) i m h⟩
  | scroll dx dy =>
    rw [heldMask_concat_other pre _ (by intro b; simp) (by intro b; simp), ← hd]
    have ht := scroll_table _ _ hm8 (scroll_mask_mem F dx dy)
    have hT : transientBits F pre (Event.scroll dx dy) = scroll_mask F dx dy := by
      rw [scroll_mask_eq]; rfl
    cases hi : data.status.inhibited
    · simp [dispatch, handle_scroll, hi, pointerMasks]
    · simp only [dispatch, handle_scroll, hi, if_true, pointerMasks, sendPointer, setButtons,
        hT, ht]
      exact ⟨trivial, fun i m h => bound_pair _ _ _ _ (by simp) (by simp) i m h⟩
  | shortcuts_inhibited_notify b =>
    rw [heldMask_concat_other pre _ (by intro b; simp) (by intro b; simp), ← hd]
    simp [dispatch, on_shortcuts_inhibited_notify, pointerMasks]
  | key_press keyval state =>
    rw [heldMask_concat_other pre _ (by intro b; simp) (by intro b; simp), ← hd]
    simp only [dispatch, handle_key_press_masks,
      (handle_key_press_no_pointer keyval state data).1]
    exact ⟨trivial, fun i m h => bound_nil _ _ i m h⟩
  | key_release keyval state =>
    rw [heldMask_concat_other pre _ (by intro b; simp) (by intro b; simp), ← hd]
    simp only [dispatch, handle_key_release_masks,
      (handle_key_release_no_pointer keyval state data).1]
    exact ⟨trivial, fun i m h => bound_nil _ _ i m h⟩
  | clipboard_content text textlen =>
    rw [heldMask_concat_other pre _ (by intro b; simp) (by intro b; simp), ← hd]
    cases text <;> simp [dispatch, handle_clipboard_content, pointerMasks]

theorem run_held (F : GDouble D) (client : rfbClient) (data : Data D)
    (h0 : data.mouse.buttons = 0) (es : List (Event D)) :
    (run F client data es).1.mouse.buttons = heldMask es := by
  induction es using List.reverseRecOn with
  | nil =>
    have : heldMask ([] : List (Event D)) = 0 := by simp [heldMask, held, lastClick]
    simpa [run, this] using h0
  | append_singleton pre e ih =>
    rw [run_concat]
    exact (dispatch_held F client e _ pre ih).1

/-- C9, counterexample: from the initial record, a release of the primary
button that no press preceded sends the masks 1 and 0, although no button is
truly held after it and no scroll is involved: mask 1 is not contained in the
union of the truly held buttons, which is 0. -/
theorem release_without_press_exceeds_held :
    pointerMasks (run exactDouble ⟨1280, 720⟩ (init_data exactDouble)
      [Event.mouse_release GDK_BUTTON_PRIMARY]).2 = [1, 0] ∧
    heldMask [(Event.mouse_release GDK_BUTTON_PRIMARY : Event ℚ)] = 0 ∧
    (1 : Nat) &&& 0 ≠ 1 := by
  refine ⟨by decide, by decide, by decide⟩

/-- C9, amended: in a session started with mask 0, every pointer mask sent
while an event is handled is contained in the union of the bits of the truly
held buttons (those whose most recent press or release, up to and including
that event, is a press), joined, for the first update of that event only,
with the wheel bits of the event when it is a scroll and with the bit of the
button when it is the release of a known button that was not truly held. -/
theorem outbound_mask_bounded (F : GDouble D) (client : rfbClient) (data : Data D)
    (h0 : data.mouse.buttons = 0) (pre : List (Event D)) (e : Event D) (i m : Nat)
    (hm : (pointerMasks (dispatch F client e (run F client data pre).1).2)[i]? = some m) :
    m &&& (heldMask (pre ++ [e]) ||| if i = 0 then transientBits F pre e else 0) = m :=
  (dispatch_held F client e _ pre (run_held F client data h0 pre)).2 i m hm

/-! ## Coordinate scaling in binary64 -/

theorem log2Fuel_spec (fuel n : Nat) (hn : 0 < n) (hf : n ≤ fuel) :
    2 ^ log2Fuel fuel n ≤ n ∧ n < 2 ^ (log2Fuel fuel n + 1) := by
  induction fuel generalizing n with
  | zero => omega
  | succ fuel ih =>
    unfold log2Fuel
    by_cases h2 : n < 2
    · rw [if_pos h2]
      omega
    · rw [if_neg h2]
      obtain ⟨h3, h4⟩ := ih (n / 2) (by omega) (by omega)
      have e1 : 2 ^ (log2Fuel fuel (n / 2) + 1) = 2 * 2 ^ log2Fuel fuel (n / 2) := by
        rw [pow_succ]; ring
      have e2 : 2 ^ (log2Fuel fuel (n / 2) + 1 + 1) = 4 * 2 ^ log2Fuel fuel (n / 2) := by
        rw [pow_succ, pow_succ]; ring
      rw [e1] at h4
      rw [e1, e2]
      omega

/-- The fuel of `bitLog` suffices: `bitLog n` is the floor of the binary
logarithm of every positive `n`. -/
theorem bitLog_spec (n : Nat) (hn : 0 < n) : 2 ^ bitLog n ≤ n ∧ n < 2 ^ (bitLog n + 1) :=
  log2Fuel_spec n n hn (le_refl n)

/-- The result of `roundHalfEven` is within one half of `num / den`, and is
even when `num / den` lies halfway between two integers. -/
theorem roundHalfEven_spec (num den : Nat) (hden : 0 < den) :
    2 * (roundHalfEven num den * den) ≤ 2 * num + den ∧
    2 * num ≤ 2 * (roundHalfEven num den * den) + den ∧
    (2 * (num % den) = den → roundHalfEven num den % 2 = 0) := by
  have h := Nat.div_add_mod' num den
  have hr := Nat.mod_lt num hden
  unfold roundHalfEven
  simp only
  split_ifs with h1 h2 h3
  · refine ⟨by omega, by omega, by omega⟩
  · rw [Nat.add_mul, Nat.one_mul]
    refine ⟨by omega, by omega, by omega⟩
  · refine ⟨by omega, by omega, fun _ => h3⟩
  · rw [Nat.add_mul, Nat.one_mul]
    refine ⟨by omega, by omega, fun _ => by omega⟩

/-- The result `E` of `floorLog2` satisfies `2 ^ E ≤ p / q < 2 ^ (E + 1)`,
stated without division for a non-negative and for a negative `E`. -/
theorem floorLog2_spec (p q : Nat) (hp : 0 < p) (hq : 0 < q) :
    (0 ≤ floorLog2 p q →
      q * 2 ^ (floorLog2 p q).toNat ≤ p ∧ p < q * 2 ^ ((floorLog2 p q).toNat + 1)) ∧
    (floorLog2 p q < 0 →
      q ≤ p * 2 ^ (-(floorLog2 p q)).toNat ∧ p * 2 ^ (-(floorLog2 p q)).toNat < 2 * q) := by
  obtain ⟨p1, p2⟩ := bitLog_spec p hp
  obtain ⟨q1, q2⟩ := bitLog_spec q hq
  unfold floorLog2
  simp only
  by_cases hd : bitLog q ≤ bitLog p
  · obtain ⟨k, hk⟩ := Nat.exists_eq_add_of_le hd
    have hdk : (bitLog p : Int) - (bitLog q : Int) = (k : Int) := by omega
    rw [hdk, if_pos (by omega : (0 : Int) ≤ (k : Int)), Int.toNat_ofNat]
    have hpow : 2 ^ (bitLog p + 1) = 2 ^ bitLog q * 2 ^ (k + 1) := by
      rw [hk, ← pow_add]; congr 1
    have hup : p < q * 2 ^ (k + 1) := by
      calc p < 2 ^ (bitLog p + 1) := p2
        _ = 2 ^ bitLog q * 2 ^ (k + 1) := hpow
        _ ≤ q * 2 ^ (k + 1) := Nat.mul_le_mul_right _ q1
    by_cases ht : q * 2 ^ k ≤ p
    · rw [if_pos ht]
      exact ⟨fun _ => by simpa using ⟨ht, hup⟩, fun h => by omega⟩
    · rw [if_neg ht]
      cases k with
      | zero =>
        simp only [pow_zero, mul_one, not_le] at ht
        refine ⟨fun h => by omega, fun _ => ?_⟩
        have e : (-((0 : Nat) - 1 : Int)).toNat = 1 := by decide
        simp only [Nat.cast_zero, zero_sub, neg_neg, Int.toNat_one, pow_one] at e ⊢
        simp only [Nat.add_zero] at hk
        rw [hk] at p1
        rw [pow_succ] at q2
        omega
      | succ k =>
        have e : (((k + 1 : Nat) : Int) - 1).toNat = k := by omega
        rw [e]
        refine ⟨fun _ => ⟨?_, by omega⟩, fun h => by omega⟩
        have : q * 2 ^ k < 2 ^ bitLog p := by
          calc q * 2 ^ k < 2 ^ (bitLog q + 1) * 2 ^ k :=
                Nat.mul_lt_mul_of_pos_right q2 (by positivity)
            _ = 2 ^ bitLog p := by rw [hk, ← pow_add]; congr 1; omega
        omega
  · obtain ⟨k, hk⟩ := Nat.exists_eq_add_of_lt (not_le.mp hd)
    have hdk : (bitLog p : Int) - (bitLog q : Int) = -((k + 1 : Nat) : Int) := by omega
    rw [hdk, if_neg (by omega)]
    have e1 : (- -((k + 1 : Nat) : Int)).toNat = k + 1 := by omega
    rw [e1]
    by_cases ht : q ≤ p * 2 ^ (k + 1)
    · rw [if_pos ht, e1]
      refine ⟨fun h => by omega, fun _ => ⟨ht, ?_⟩⟩
      calc p * 2 ^ (k + 1) < 2 ^ (bitLog p + 1) * 2 ^ (k + 1) :=
            Nat.mul_lt_mul_of_pos_right p2 (by positivity)
        _ = 2 * 2 ^ bitLog q := by
            rw [hk, ← pow_add, ← pow_succ']; congr 1; omega
        _ ≤ 2 * q := Nat.mul_le_mul_left _ q1
    · rw [if_neg ht]
      have e2 : (-(-((k + 1 : Nat) : Int) - 1)).toNat = k + 2 := by omega
      rw [e2]
      refine ⟨fun h => by omega, fun _ => ⟨?_, ?_⟩⟩
      · calc q ≤ 2 ^ (bitLog q + 1) := le_of_lt q2
          _ = 2 ^ bitLog p * 2 ^ (k + 2) := by rw [hk, ← pow_add]; congr 1
          _ ≤ p * 2 ^ (k + 2) := Nat.mul_le_mul_right _ p1
      · have e3 : p * 2 ^ (k + 2) = 2 * (p * 2 ^ (k + 1)) := by
          rw [pow_succ]; ring
        rw [e3]
        omega

/-- At the position 0 and at the scroll deltas 0 and -1, the only values at
which sessions are instantiated with `exactDouble`, it agrees with
`binary64`. -/
theorem exactDouble_agrees_with_binary64 :
    exactDouble.toInt (exactDouble.ofInt 0) = binary64.toInt (binary64.ofInt 0) ∧
    exactDouble.lt (exactDouble.ofInt (-1)) (exactDouble.ofInt 0) =
      binary64.lt (binary64.ofInt (-1)) (binary64.ofInt 0) ∧
    exactDouble.lt (exactDouble.ofInt 0) (exactDouble.ofInt (-1)) =
      binary64.lt (binary64.ofInt 0) (binary64.ofInt (-1)) ∧
    exactDouble.lt (exactDouble.ofInt 0) (exactDouble.ofInt 0) =
      binary64.lt (binary64.ofInt 0) (binary64.ofInt 0) := by
  refine ⟨by decide, by decide, by decide, by decide⟩

/-- The figures of the specification hold in binary64: for a 1920 by 1080
surface and a 1280 by 720 framebuffer, the point (960, 540) is stored and
sent as (640, 360) and the point (0, 0) as (0, 0). -/
theorem handle_mouse_motion_figures :
    (handle_mouse_motion binary64 ⟨1280, 720⟩ 1920 1080 (binary64.ofInt 960)
        (binary64.ofInt 540) (on_shortcuts_inhibited_notify true (init_data binary64))).2 =
      [Out.SendPointerEvent 640 360 0] ∧
    (handle_mouse_motion binary64 ⟨1280, 720⟩ 1920 1080 (binary64.ofInt 0)
        (binary64.ofInt 0) (on_shortcuts_inhibited_notify true (init_data binary64))).2 =
      [Out.SendPointerEvent 0 0 0] := by
  constructor <;> decide

/-- C5, failing inputs: while captured, for a surface 1000 wide and a
framebuffer 1920 wide, the point x = 125, y = 0 is stored as
8444249301319679 * 2 ^ (-45), the binary64 number just below 240, and sent
as x = 239, although 125 * 1920 / 1000 is exactly 240.  For a framebuffer
1440 wide, the binary64 point x = 8796093022207999 * 2 ^ (-43), the number
just below 1000, is sent as x = 1440, which is not below the framebuffer
width. -/
theorem handle_mouse_motion_rounding :
    handle_mouse_motion binary64 ⟨1920, 1080⟩ 1000 1000 (binary64.ofInt 125)
        (binary64.ofInt 0) (on_shortcuts_inhibited_notify true (init_data binary64)) =
      ({ on_shortcuts_inhibited_notify true (init_data binary64) with
          mouse := { buttons := 0
                     X := Binary64.fin false 8444249301319679 (-45)
                     Y := Binary64.fin false 0 0 } },
       [Out.SendPointerEvent 239 0 0]) ∧
    (125 : Int) * 1920 = 240 * 1000 ∧
    binary64.lt (Binary64.fin false 8796093022207999 (-43)) (binary64.ofInt 1000) = true ∧
    binary64.lt (Binary64.fin false 8796093022207999 (-43)) (binary64.ofInt 0) = false ∧
    (handle_mouse_motion binary64 ⟨1440, 1080⟩ 1000 1000
        (Binary64.fin false 8796093022207999 (-43)) (binary64.ofInt 0)
        (on_shortcuts_inhibited_notify true (init_data binary64))).2 =
      [Out.SendPointerEvent 1440 0 0] := by
  refine ⟨by decide, by decide, by decide, by decide, by decide⟩

/-! ## Concrete sessions -/

theorem wheel_bits_pulsed_witness :
    (init_data exactDouble).mouse.buttons = 0 ∧
    (run exactDouble ⟨1280, 720⟩ (init_data exactDouble)
        [Event.shortcuts_inhibited_notify true, Event.scroll 0 (-1),
         Event.mouse_press GDK_BUTTON_PRIMARY]).1.mouse.buttons &&&
      (8 ||| 16 ||| 32 ||| 64) = 0 :=
  ⟨rfl, (wheel_bits_pulsed exactDouble ⟨1280, 720⟩ (init_data exactDouble) rfl
    [Event.shortcuts_inhibited_notify true, Event.scroll 0 (-1),
     Event.mouse_press GDK_BUTTON_PRIMARY]).1⟩

theorem press_release_clean_edges_witness :
    (init_data exactDouble).mouse.buttons = 0 ∧
    ∃ (l : List Nat) (p q : Nat),
      0 :: pointerMasks (run exactDouble ⟨1280, 720⟩ (init_data exactDouble)
        ([Event.mouse_press GDK_BUTTON_PRIMARY] ++
          [Event.mouse_press GDK_BUTTON_PRIMARY])).2 = l ++ [p, q] ∧
      (pointerMasks (handle_mouse_press exactDouble GDK_BUTTON_PRIMARY
        (run exactDouble ⟨1280, 720⟩ (init_data exactDouble)
          [Event.mouse_press GDK_BUTTON_PRIMARY]).1).2).getLast? = some q ∧
      p.testBit 0 = false ∧ q.testBit 0 = true :=
  ⟨rfl, (press_release_clean_edges exactDouble ⟨1280, 720⟩ (init_data exactDouble) rfl
    [Event.mouse_press GDK_BUTTON_PRIMARY] GDK_BUTTON_PRIMARY 0 (Or.inl ⟨rfl, rfl⟩)).1⟩

theorem outbound_mask_bounded_witness :
    (init_data exactDouble).mouse.buttons = 0 ∧
    (pointerMasks (dispatch exactDouble ⟨1280, 720⟩ (Event.mouse_release GDK_BUTTON_PRIMARY)
      (run exactDouble ⟨1280, 720⟩ (init_data exactDouble) []).1).2)[0]? = some 1 ∧
    1 &&& (heldMask ([] ++ [(Event.mouse_release GDK_BUTTON_PRIMARY : Event ℚ)]) |||
      if 0 = 0 then transientBits exactDouble [] (Event.mouse_release GDK_BUTTON_PRIMARY)
        else 0) = 1 :=
  ⟨rfl, by decide,
    outbound_mask_bounded exactDouble ⟨1280, 720⟩ (init_data exactDouble) rfl []
      (Event.mouse_release GDK_BUTTON_PRIMARY) 0 1 (by decide)⟩

end VncClient
